import Mathlib

/-!
# Accelerators.cpp: key bindings, chords and the bundle/menu resolution protocol

A shallow embedding of `src/Accelerators.cpp`.

* `wxString` values are lists of characters (`WxString`); the `wxString` members the
  source calls (`Trim`, `MakeLower`, `Find`, `Mid`, `Left`, `Contains`, and `Replace`
  as `ReplaceAmp`) are the functions of the same name below.
* `std::map` is an association list with `mapFind` (`find`), `mapSet`
  (`operator[]` assignment) and `mapInsert` (`insert`).
* `KeyChord*` and `BundleKeyChord*` are indices into a heap of chord objects kept in
  the state, `NULL` is `none`; the objects are allocated by `new` and only ever
  reached through these pointers.
* `int` is `Int`; the result of `(flags << 24) | code` is wrapped to 32 bits.
* What the source takes from wxWidgets and does not define itself
  (`wxAcceleratorEntry::ParseAccel`, the `WXK_*` key codes, `wxMenuItem::GetLabel`,
  whether `__WXMSW__` is defined) is the parameter `Wx`.
* `RunEvent` is recorded as the list of identifiers posted.
-/

namespace Accelerators

/-! ## wxString -/

/-- A `wxString`. -/
abbrev WxString := List Char

/-- The C `isspace` test used by `wxString::Trim`. -/
def isspace (c : Char) : Bool :=
  c.toNat = 32 || (9 ≤ c.toNat && c.toNat ≤ 13)

/-- The member `wxString::Trim()` (from the right, its default). -/
def Trim (s : WxString) : WxString :=
  (s.reverse.dropWhile isspace).reverse

/-- One character of `wxString::MakeLower` (ASCII letters). -/
def lowerChar (c : Char) : Char :=
  if 65 ≤ c.toNat ∧ c.toNat ≤ 90 then Char.ofNat (c.toNat + 32) else c

/-- The member `wxString::MakeLower()` / `wxString::Lower()`. -/
def MakeLower (s : WxString) : WxString :=
  s.map lowerChar

/-- The call `str.Replace(wxT("&"), wxT(""))`: every ampersand is removed. -/
def ReplaceAmp (s : WxString) : WxString :=
  s.filter (fun c => c.toNat != 38)

/-- The member `wxString::Find(ch)`: index of the first occurrence, `none` for
`wxNOT_FOUND`. -/
def Find : WxString → Char → Option Nat
  | [], _ => none
  | x :: t, c => if x = c then some 0 else (Find t c).map (· + 1)

/-- The member `wxString::Mid(first)`. -/
def Mid (s : WxString) (first : Nat) : WxString :=
  s.drop first

/-- The member `wxString::Left(count)`, also `Mid(0, count)`. -/
def Left (s : WxString) (count : Nat) : WxString :=
  s.take count

/-- The member `wxString::Contains(sub)`. -/
def Contains : WxString → WxString → Bool
  | [], sub => sub.isEmpty
  | x :: t, sub => sub.isPrefixOf (x :: t) || Contains t sub

/-- The tab character that separates label and accelerator in a menu item text. -/
def TAB : Char := Char.ofNat 9

/-- The space character that separates the two keys of a chord. -/
def SPACE : Char := Char.ofNat 32

/-- Source lines 19-22. -/
def normalize (str : WxString) : WxString :=
  MakeLower (Trim (ReplaceAmp str))

/-! ## std::map -/

/-- The member `std::map::find`. -/
def mapFind {K V : Type} [DecidableEq K] : List (K × V) → K → Option V
  | [], _ => none
  | (k0, v0) :: t, k => if k0 = k then some v0 else mapFind t k

/-- The assignment `m[k] = v`. -/
def mapSet {K V : Type} [DecidableEq K] : List (K × V) → K → V → List (K × V)
  | [], k, v => [(k, v)]
  | (k0, v0) :: t, k, v => if k0 = k then (k, v) :: t else (k0, v0) :: mapSet t k v

/-- The member `std::map::insert`: an existing key keeps its value. -/
def mapInsert {K V : Type} [DecidableEq K] (m : List (K × V)) (k : K) (v : V) :
    List (K × V) :=
  match mapFind m k with
  | some _ => m
  | none => mapSet m k v

/-! ## What wxWidgets supplies -/

/-- The parts of wxWidgets the source relies on. -/
structure Wx where
  /-- The values `wxAcceleratorEntry::ParseAccel` leaves in `flags` and `code`. -/
  ParseAccel : WxString → Int × Int
  /-- Whether `__WXMSW__` is defined. -/
  WXMSW : Bool
  /-- The label `wxMenuItem::GetLabel` derives from the item text. -/
  GetLabel : WxString → WxString
  WXK_CONTROL : Int
  WXK_ALT : Int
  WXK_SHIFT : Int
  WXK_WINDOWS_LEFT : Int
  WXK_WINDOWS_RIGHT : Int

/-- The wxWidgets modifier flag of the Ctrl key (`wxACCEL_CTRL`, `wxMOD_CONTROL`). -/
def wxACCEL_CTRL : Int := 2

/-- The 32-bit `int` value of `(flags << 24) | code`. -/
def hashOf (flags code : Int) : Int :=
  Int.bmod (Int.lor (flags <<< (24 : Int)) code) (2 ^ 32)

/-- Source lines 28-39. -/
def shouldIgnore (W : Wx) (code : Int) : Bool :=
  code = W.WXK_CONTROL || code = W.WXK_ALT || code = W.WXK_SHIFT ||
    code = W.WXK_WINDOWS_LEFT || code = W.WXK_WINDOWS_RIGHT

/-- Source lines 46-57. -/
def makeHash (W : Wx) (accel : WxString) : Int :=
  let fc := W.ParseAccel (TAB :: accel)
  let flags :=
    if W.WXMSW && Contains (MakeLower accel) "win".toList then Int.lor fc.1 8 else fc.1
  hashOf flags fc.2

/-! ## Data -/

/-- A `wxMenuItem` as far as the source reads and writes it. -/
structure MenuItem where
  id : Int
  text : WxString
  isSeparator : Bool
deriving DecidableEq, Repr

/-- The class `KeyBinding`; `menuItem` is represented by the fields read from it. -/
structure KeyBinding where
  label : WxString
  accel : WxString
  finalKey : WxString
  id : Int
deriving DecidableEq, Repr

/-- The class `KeyChord`: the leader text and the followers. -/
structure KeyChord where
  key : WxString
  bindings : List (Int × KeyBinding)
deriving DecidableEq, Repr

/-- The class `BundleKeyChord`, built as `BundleKeyChord(chordHash, chordString)`. -/
structure BundleKeyChord where
  hash : Int
  key : WxString
  bindings : List (Int × Bool)
deriving DecidableEq, Repr

/-- The key of a `tmAction`. -/
structure tmKey where
  modifiers : Int
  keyCode : Int
deriving DecidableEq, Repr

/-- A `tmAction` as far as the source reads it. -/
structure tmAction where
  name : WxString
  key : tmKey
deriving DecidableEq, Repr

/-- The members of `Accelerators`, with the two heaps of chord objects. -/
structure State where
  chordHeap : List KeyChord
  bundleChordHeap : List BundleKeyChord
  m_chords : List (Int × Nat)
  m_bindings : List (Int × KeyBinding)
  m_bundleChords : List (Int × Nat)
  m_bundleBindings : List (Int × Bool)
  m_activeChord : Option Nat
  m_activeBundleChord : Option Nat
  m_defaultBindings : List (WxString × WxString)
  m_customBindings : List (WxString × WxString)
  m_needDefault : Bool
  m_chordActivated : Bool
  m_actionReturned : Bool
  m_searchBundleBindings : Bool
  m_searchBundleChords : Bool
deriving DecidableEq, Repr

/-- The object a `KeyChord*` points to. -/
def derefChord (s : State) (p : Nat) : KeyChord :=
  s.chordHeap.getD p ⟨[], []⟩

/-- The object a `BundleKeyChord*` points to. -/
def derefBundleChord (s : State) (p : Nat) : BundleKeyChord :=
  s.bundleChordHeap.getD p ⟨0, [], []⟩

/-- Every `KeyChord*` held by the static chord table points to an allocated object. -/
def chordsValid (s : State) : Prop :=
  ∀ h p, mapFind s.m_chords h = some p → p < s.chordHeap.length

/-- Every `BundleKeyChord*` held by the bundle chord table points to an allocated
object. -/
def bundleChordsValid (s : State) : Prop :=
  ∀ h p, mapFind s.m_bundleChords h = some p → p < s.bundleChordHeap.length

/-- What a call reports: its return value, the identifiers passed to `RunEvent` in
order, and the members afterwards. -/
structure Outcome where
  ret : Bool
  events : List Int
  state : State
deriving DecidableEq, Repr

/-! ## Static bindings -/

/-- The constructor `KeyBinding::KeyBinding(wxMenuItem*)`, source lines 59-66
(`text.Index` gives -1 when there is no tab, so `Mid` starts at 0). -/
def KeyBinding.ofItem (W : Wx) (item : MenuItem) : KeyBinding :=
  { label := W.GetLabel item.text
    accel := match Find item.text TAB with
      | some i => Mid item.text (i + 1)
      | none => Mid item.text 0
    finalKey := []
    id := item.id }

/-- Source lines 151-176. -/
def InsertBinding (W : Wx) (s : State) (item : MenuItem) (accel : WxString) : State :=
  if accel.length = 0 then s else
  let binding := KeyBinding.ofItem W item
  match Find accel SPACE with
  | some pos =>
    let chordAccel := Left accel pos
    let binding := { binding with finalKey := Trim (Mid accel (pos + 1)) }
    let s1 : State × Nat :=
      match mapFind s.m_chords (makeHash W chordAccel) with
      | some chord => (s, chord)
      | none =>
        let chord := s.chordHeap.length
        ({ s with
            chordHeap := s.chordHeap ++ [⟨chordAccel, []⟩]
            m_chords := mapInsert s.m_chords (makeHash W chordAccel) chord }, chord)
    { s1.1 with
        chordHeap := s1.1.chordHeap.modify
          (fun c => { c with bindings := mapSet c.bindings (makeHash W binding.finalKey) binding })
          s1.2 }
  | none => { s with m_bindings := mapSet s.m_bindings (makeHash W accel) binding }

/-- Source lines 511-514. -/
def ResetChords (s : State) : State :=
  { s with m_activeBundleChord := none, m_activeChord := none }

/-- The accelerator text of the first tab-switch key, source line 481. -/
def ctrl1 : WxString := "Ctrl-1".toList

/-- The accelerator text of the last tab-switch key, source line 482. -/
def ctrl9 : WxString := "Ctrl-9".toList

/-- Source lines 466-509. -/
def MatchMenus (W : Wx) (s : State) (hash : Int) : Outcome :=
  match s.m_activeChord with
  | some chord =>
    match mapFind (derefChord s chord).bindings hash with
    | some binding => ⟨true, [binding.id], ResetChords (ResetChords s)⟩
    | none => ⟨true, [], ResetChords s⟩
  | none =>
    if makeHash W ctrl1 ≤ hash ∧ hash ≤ makeHash W ctrl9 then
      ⟨true, [Int.bmod (Int.bmod (hash - makeHash W ctrl1) (2 ^ 32) + 40000) (2 ^ 32)],
        ResetChords s⟩
    else
      match mapFind s.m_chords hash with
      | some chord => ⟨true, [], { s with m_activeChord := some chord }⟩
      | none =>
        match mapFind s.m_bindings hash with
        | some binding => ⟨true, [binding.id], ResetChords s⟩
        | none => ⟨false, [], ResetChords s⟩

/-- What `MatchMenus` does with no static chord armed once the tab-switch test has
failed, source lines 490-508. -/
def MatchMenusTables (s : State) (hash : Int) : Outcome :=
  match mapFind s.m_chords hash with
  | some chord => ⟨true, [], { s with m_activeChord := some chord }⟩
  | none =>
    match mapFind s.m_bindings hash with
    | some binding => ⟨true, [binding.id], ResetChords s⟩
    | none => ⟨false, [], ResetChords s⟩

/-- Source lines 79-83: the tables are cleared and `m_needDefault` is set; the walk
over the menu bar follows, one `ParseMenuItem` per item. -/
def ParseMenuBegin (s : State) : State :=
  { s with
      m_chords := []
      m_bindings := []
      m_needDefault := s.m_defaultBindings.length == 0 }

/-- Source lines 110-146 of `ParseMenu(wxMenuItem*)`: the members and the item after
the default and custom look-ups, and the accelerator handed to `InsertBinding`. -/
def ParseMenuAccel (s : State) (item : MenuItem) : State × MenuItem × WxString :=
  let text := item.text
  let r : State × WxString × WxString :=
    match Find text TAB with
    | none => (s, text, [])
    | some tab =>
      let label := Left text tab
      let accel := Mid text (tab + 1)
      if s.m_needDefault then
        ({ s with m_defaultBindings := mapSet s.m_defaultBindings label accel }, label, accel)
      else
        match mapFind s.m_defaultBindings (normalize label) with
        | some d => (s, label, d)
        | none => (s, label, accel)
  let label := r.2.1
  match mapFind s.m_customBindings (normalize label) with
  | some c =>
    let text := if c.length > 0 then label ++ TAB :: c else label
    (r.1, { item with text := text }, Trim c)
  | none => (r.1, item, Trim r.2.2)

/-- Source lines 107-149: the members and the menu item after `ParseMenu(item)`. -/
def ParseMenuItem (W : Wx) (s : State) (item : MenuItem) : State × MenuItem :=
  if item.isSeparator then (s, item) else
  let r := ParseMenuAccel s item
  (InsertBinding W r.1 r.2.1 r.2.2, r.2.1)

/-- Source lines 95-105 on a menu of plain items without submenus: the items are
parsed in order. -/
def ParseMenuItems (W : Wx) : State → List MenuItem → State × List MenuItem
  | s, [] => (s, [])
  | s, item :: rest =>
    let r := ParseMenuItem W s item
    let q := ParseMenuItems W r.1 rest
    (q.1, r.2 :: q.2)

/-! ## Bundle bindings -/

/-- Source lines 289-323: `(outChordHash, outFinalHash, outChordString)` and the
members afterwards (`iterator->second.Trim()` trims the stored custom value in place). -/
def ParseBundleForHash (W : Wx) (s : State) (x : tmAction) (outChordString : WxString) :
    State × Int × Int × WxString :=
  let actionHash := hashOf x.key.modifiers x.key.keyCode
  let r : State × WxString :=
    match mapFind s.m_customBindings (normalize x.name) with
    | some c =>
      ({ s with m_customBindings := mapSet s.m_customBindings (normalize x.name) (Trim c) },
        Trim c)
    | none => (s, [])
  let customAccel := r.2
  if customAccel.isEmpty then (r.1, -1, actionHash, outChordString) else
  match Find customAccel SPACE with
  | some pos =>
    let chordAccel := Left customAccel pos
    let finalAccel := Mid customAccel (pos + 1)
    (r.1, makeHash W chordAccel, makeHash W finalAccel, chordAccel)
  | none => (r.1, -1, makeHash W customAccel, outChordString)

/-- Source lines 330-350. -/
def ParseBundles (W : Wx) (s : State) (x : tmAction) : State :=
  let r := ParseBundleForHash W s x []
  let s := r.1
  let chordHash := r.2.1
  let finalHash := r.2.2.1
  let chordString := r.2.2.2
  if chordHash > -1 then
    let s1 : State × Nat :=
      match mapFind s.m_bundleChords chordHash with
      | some chord => (s, chord)
      | none =>
        let chord := s.bundleChordHeap.length
        ({ s with
            bundleChordHeap := s.bundleChordHeap ++ [⟨chordHash, chordString, []⟩]
            m_bundleChords := mapSet s.m_bundleChords chordHash chord }, chord)
    { s1.1 with
        bundleChordHeap := s1.1.bundleChordHeap.modify
          (fun c => { c with bindings := mapSet c.bindings finalHash true }) s1.2 }
  else
    { s with m_bundleBindings := mapSet s.m_bundleBindings finalHash true }

/-- Source lines 356-394: the return value and the members afterwards. -/
def BundlesParsed (W : Wx) (s : State) (code flags : Int) : Bool × State :=
  if shouldIgnore W code then (true, s) else
  let hash := hashOf flags code
  match s.m_activeBundleChord with
  | some active =>
    let ret := (mapFind (derefBundleChord s active).bindings hash).isSome
    (ret, { s with m_searchBundleChords := true, m_actionReturned := ret })
  | none =>
    match s.m_activeChord with
    | some _ => (false, s)
    | none =>
      let s1 : State :=
        match mapFind s.m_bundleChords hash with
        | some chord => { s with m_activeBundleChord := some chord }
        | none => s
      let s2 : State :=
        match mapFind s.m_chords hash with
        | some chord => { s1 with m_activeChord := some chord }
        | none => s1
      if s2.m_activeBundleChord.isSome || s2.m_activeChord.isSome then
        (true, { s2 with m_chordActivated := true })
      else
        match mapFind s.m_bundleBindings hash with
        | some _ => (true, { s2 with m_searchBundleBindings := true, m_actionReturned := true })
        | none => (false, s2)

/-- Source lines 401-424: the return value and the members afterwards (they change
only through the in-place trim of `ParseBundleForHash`). -/
def MatchBundle (W : Wx) (s : State) (code flags : Int) (x : tmAction) : Bool × State :=
  if shouldIgnore W code then (false, s) else
  let hash := hashOf flags code
  let r := ParseBundleForHash W s x []
  let s := r.1
  let chordHash := r.2.1
  let finalHash := r.2.2.1
  if chordHash > -1 then
    if !s.m_searchBundleChords then (false, s)
    else if finalHash ≠ hash then (false, s)
    else
      match mapFind s.m_bundleChords chordHash with
      | none => (false, s)
      | some chord => ((mapFind (derefBundleChord s chord).bindings finalHash).isSome, s)
  else
    if !s.m_searchBundleBindings then (false, s)
    else (hash == finalHash, s)

/-- Source lines 426-434. -/
def Reset (s : State) : State :=
  { s with
      m_chordActivated := false
      m_actionReturned := false
      m_searchBundleBindings := false
      m_searchBundleChords := false
      m_bundleChords := []
      m_bundleBindings := [] }

/-- Source lines 441-453: the return value and the members afterwards. -/
def WasChordActivated (s : State) : Bool × State :=
  let ret := s.m_chordActivated
  let s1 := if s.m_actionReturned then
    { s with m_activeChord := none, m_activeBundleChord := none } else s
  (ret, Reset s1)

/-- Source lines 268-283; `lwin` and `rwin` are the two `GetKeyState` tests. -/
def HandleKeyEvent (W : Wx) (s : State) (modifiers keyCode : Int) (lwin rwin : Bool) :
    Outcome :=
  let hash := modifiers
  let hash := if W.WXMSW && lwin then Int.lor hash 8 else hash
  let hash := if W.WXMSW && rwin then Int.lor hash 8 else hash
  if shouldIgnore W keyCode then ⟨true, [], s⟩ else
  MatchMenus W s (hashOf hash keyCode)

/-- Source lines 516-524. -/
def StatusBarText (s : State) : WxString :=
  match s.m_activeChord with
  | some chord => "Chord ".toList ++ (derefChord s chord).key ++ " active".toList
  | none =>
    match s.m_activeBundleChord with
    | some chord => "Chord ".toList ++ (derefBundleChord s chord).key ++ " active".toList
    | none => []

/-- The members after the constructor (source lines 68-72) when no settings file is
read: nothing armed, every table empty. -/
def initState : State :=
  { chordHeap := [], bundleChordHeap := [], m_chords := [], m_bindings := [],
    m_bundleChords := [], m_bundleBindings := [], m_activeChord := none,
    m_activeBundleChord := none, m_defaultBindings := [], m_customBindings := [],
    m_needDefault := false, m_chordActivated := false, m_actionReturned := false,
    m_searchBundleBindings := false, m_searchBundleChords := false }

/-! ## A sample platform

Used where a statement is evaluated on concrete keys: a `ParseAccel` that reads the
modifiers `Ctrl`, `Alt`, `Shift` (flags 2, 1, 4) separated by `+` or `-` and a
one-character key, as wxWidgets does for such accelerators, on a non-Windows build. -/

/-- The scan of the accelerator text: the flags and the last token. -/
def sampleScan : List Char → WxString → Int → Int × WxString
  | [], cur, fl => (fl, cur)
  | c :: t, cur, fl =>
    if c.toNat = 43 ∨ c.toNat = 45 then
      if cur = "ctrl".toList then sampleScan t [] (Int.lor fl 2)
      else if cur = "alt".toList then sampleScan t [] (Int.lor fl 1)
      else if cur = "shift".toList then sampleScan t [] (Int.lor fl 4)
      else if cur = [] then sampleScan t [c] fl
      else sampleScan t [] fl
    else sampleScan t (cur ++ [lowerChar c]) fl

/-- The upper-case form of a key character (ASCII letters). -/
def upperChar (c : Char) : Char :=
  if 97 ≤ c.toNat ∧ c.toNat ≤ 122 then Char.ofNat (c.toNat - 32) else c

/-- The sample `ParseAccel`: the text after the first tab is scanned; a key that is
not a single character gives code 0. -/
def sampleParseAccel (text : WxString) : Int × Int :=
  let label := Trim text
  match Find label TAB with
  | none => (0, 0)
  | some i =>
    let r := sampleScan (Mid label (i + 1)) [] 0
    match r.2 with
    | [c] => (r.1, if r.1 = 0 then (c.toNat : Int) else ((upperChar c).toNat : Int))
    | _ => (r.1, 0)

/-- The sample `GetLabel`: the text before the tab, ampersands removed. -/
def sampleGetLabel (text : WxString) : WxString :=
  match Find text TAB with
  | some i => ReplaceAmp (Left text i)
  | none => ReplaceAmp text

/-- The sample platform. -/
def sampleWx : Wx :=
  { ParseAccel := sampleParseAccel
    WXMSW := false
    GetLabel := sampleGetLabel
    WXK_CONTROL := 308
    WXK_ALT := 307
    WXK_SHIFT := 306
    WXK_WINDOWS_LEFT := 393
    WXK_WINDOWS_RIGHT := 394 }

/-! ## Concrete members and actions on the sample platform -/

/-- A state reached on the sample platform: the chord `Ctrl-K Ctrl-B` of item 7 and
the flat binding `Ctrl-S` of item 9 are registered, and `Ctrl-K` has been pressed. -/
def sampleArmedState : State :=
  (MatchMenus sampleWx
    (InsertBinding sampleWx
      (InsertBinding sampleWx initState ⟨7, "Fold\tCtrl-K Ctrl-B".toList, false⟩
        "Ctrl-K Ctrl-B".toList)
      ⟨9, "Save\tCtrl-S".toList, false⟩ "Ctrl-S".toList)
    (makeHash sampleWx "Ctrl-K".toList)).state

/-- The menu item `Save` with declared accelerator `Ctrl+S`. -/
def saveItem : MenuItem := ⟨5, "Save\tCtrl+S".toList, false⟩

/-- The initial state with the one custom binding `save -> Ctrl+Shift+S`. -/
def saveCustomState : State :=
  { initState with m_customBindings := [("save".toList, "Ctrl+Shift+S".toList)] }

/-- The initial state with the one custom binding `save -> " "` (a single space). -/
def saveBlankState : State :=
  { initState with m_customBindings := [("save".toList, [SPACE])] }

/-- The bundle action `Wrap`, without a key of its own. -/
def wrapAction : tmAction := ⟨"Wrap".toList, ⟨0, 0⟩⟩

/-- The bundle action `Join`, without a key of its own. -/
def joinAction : tmAction := ⟨"Join".toList, ⟨0, 0⟩⟩

/-- The members before the first keystroke: the custom chord `Ctrl-K Ctrl-B` for the
bundle action `Wrap`, and the menu item 77 bound to `Ctrl-K` in the static flat
table. -/
def wrapKillState : State :=
  InsertBinding sampleWx
    { initState with m_customBindings := [("wrap".toList, "Ctrl-K Ctrl-B".toList)] }
    ⟨77, "Kill\tCtrl-K".toList, false⟩ "Ctrl-K".toList

/-- The members after the first cycle on `Ctrl-K` (key code 75, modifiers 2): the
action is registered, Pass A runs, then the reconciliation. -/
def wrapKillArmed : State :=
  (WasChordActivated (BundlesParsed sampleWx (ParseBundles sampleWx wrapKillState wrapAction)
    75 2).2).2

/-- The members in the second cycle on `Ctrl-K`, after registration, Pass A and the
reconciliation. -/
def wrapKillSecond : State :=
  (WasChordActivated (BundlesParsed sampleWx (ParseBundles sampleWx wrapKillArmed wrapAction)
    75 2).2).2

/-- The members before the first keystroke: the custom chords `Ctrl-K Ctrl-B` for the
bundle action `Wrap` and `Ctrl-J Ctrl-B` for the bundle action `Join`. -/
def wrapJoinState : State :=
  { initState with
      m_customBindings :=
        [("wrap".toList, "Ctrl-K Ctrl-B".toList), ("join".toList, "Ctrl-J Ctrl-B".toList)] }

/-- The members after the first cycle on `Ctrl-K`: both actions are registered, Pass A
runs, then the reconciliation. -/
def wrapJoinArmed : State :=
  (WasChordActivated (BundlesParsed sampleWx
    (ParseBundles sampleWx (ParseBundles sampleWx wrapJoinState wrapAction) joinAction)
    75 2).2).2

/-- The members in the second cycle on `Ctrl-B` (key code 66, modifiers 2), after both
actions are registered again and Pass A has run. -/
def wrapJoinSecond : State :=
  (BundlesParsed sampleWx
    (ParseBundles sampleWx (ParseBundles sampleWx wrapJoinArmed wrapAction) joinAction)
    66 2).2

/-- The members in the second cycle, with the bundle chord of leader `Ctrl-K` and
follower `Ctrl-B` armed and the action `Wrap` registered again. -/
def wrapArmedRegistered : State :=
  ParseBundles sampleWx wrapKillArmed wrapAction

/-- The bundle action `Wrap` with the key `Ctrl-K` of its own. -/
def wrapKeyAction : tmAction := ⟨"Wrap".toList, ⟨2, 75⟩⟩

/-- The initial state with the one custom binding `wrap -> ""`. -/
def wrapEmptyState : State :=
  { initState with m_customBindings := [("wrap".toList, [])] }

/-- The bundle action `Sort` with the key `Ctrl-S` of its own. -/
def sortAction : tmAction := ⟨"Sort".toList, ⟨2, 83⟩⟩

/-- Two menu items with the same normalized label `save` and different accelerators. -/
def twoSaveItems : List MenuItem :=
  [⟨1, "save\tCtrl+S".toList, false⟩, ⟨2, "save\tCtrl+D".toList, false⟩]

/-- A menu with the items `Save` and `Open` and a separator. -/
def sampleMenu : List MenuItem :=
  [saveItem, ⟨0, [], true⟩, ⟨6, "&Open\tCtrl+O".toList, false⟩]

/-! ## Auxiliary notions for the bundle tables -/

/-- The caller's loop of a keystroke cycle: `ParseBundles` once for each bundle action
(comment at source lines 325-329). -/
def ParseBundlesList (W : Wx) : State → List tmAction → State
  | s, [] => s
  | s, x :: rest => ParseBundlesList W (ParseBundles W s x) rest

/-- The custom accelerator `ParseBundleForHash` works with (source lines 296-302):
the trimmed custom value of the normalized action name, empty when there is none. -/
def customAccelOf (s : State) (x : tmAction) : WxString :=
  match mapFind s.m_customBindings (normalize x.name) with
  | some c => Trim c
  | none => []

/-- Source lines 290-293 and 304-322 of `ParseBundleForHash`: the three out-parameters
computed from the custom accelerator. -/
def bundleHashes (W : Wx) (x : tmAction) (customAccel outChordString : WxString) :
    Int × Int × WxString :=
  if customAccel.isEmpty then (-1, hashOf x.key.modifiers x.key.keyCode, outChordString) else
  match Find customAccel SPACE with
  | some pos =>
    (makeHash W (Left customAccel pos), makeHash W (Mid customAccel (pos + 1)),
      Left customAccel pos)
  | none => (-1, makeHash W customAccel, outChordString)

/-- Two custom maps that agree up to right-trimming of their values. -/
def trimEq (cm cm1 : List (WxString × WxString)) : Prop :=
  ∀ k, (mapFind cm1 k).map Trim = (mapFind cm k).map Trim

/-! ## Auxiliary notions for the traversal of the menu -/

/-- The label part of a menu item text, source lines 112-117: the text before the first
tab, the whole text when there is none. -/
def labelOf (text : WxString) : WxString :=
  match Find text TAB with
  | some tab => Left text tab
  | none => text

/-- The accelerator part of a menu item text, source lines 113-118: the text after the
first tab, empty when there is none. -/
def declaredAccel (text : WxString) : WxString :=
  match Find text TAB with
  | some tab => Mid text (tab + 1)
  | none => []

/-- The accelerators resolved along a traversal (source lines 95-105 and 146-148): for
each item in order, the accelerator `ParseMenu(item)` hands to `InsertBinding`, `none`
for a separator. -/
def resolvedAccels (W : Wx) : State → List MenuItem → List (Option WxString)
  | _, [] => []
  | s, item :: rest =>
    (if item.isSeparator then none else some (ParseMenuAccel s item).2.2) ::
      resolvedAccels W (ParseMenuItem W s item).1 rest

/-- The chord object the static chord table holds for a hash, if any. -/
def chordAt (s : State) (h : Int) : Option KeyChord :=
  (mapFind s.m_chords h).map (derefChord s)

/-- The pointers of the static chord table point to allocated objects, and no two
hashes share one object. -/
def chordsSeparate (s : State) : Prop :=
  chordsValid s ∧
  ∀ h1 h2 p, mapFind s.m_chords h1 = some p → mapFind s.m_chords h2 = some p → h1 = h2

/-- The static tables of `t` are those of `s`: the same flat table, and for every hash
the same chord object. -/
def tablesAgree (s t : State) : Prop :=
  t.m_bindings = s.m_bindings ∧ ∀ h, chordAt t h = chordAt s h

/-- The chord held for `h` after `InsertBinding(item, accel)` (source lines 151-173)
in terms of the chords held before. -/
def chordAtInsert (W : Wx) (prev : Int → Option KeyChord) (item : MenuItem) (accel : WxString)
    (h : Int) : Option KeyChord :=
  if accel.length = 0 then prev h else
  match Find accel SPACE with
  | none => prev h
  | some pos =>
    if makeHash W (Left accel pos) = h then
      some (match prev h with
        | some c =>
          { c with
              bindings := mapSet c.bindings (makeHash W (Trim (Mid accel (pos + 1))))
                { KeyBinding.ofItem W item with finalKey := Trim (Mid accel (pos + 1)) } }
        | none =>
          ⟨Left accel pos, [(makeHash W (Trim (Mid accel (pos + 1))),
            { KeyBinding.ofItem W item with finalKey := Trim (Mid accel (pos + 1)) })]⟩)
    else prev h

/-- The flat table after `InsertBinding(item, accel)` (source lines 151-152 and
173-175) in terms of the flat table before. -/
def bindingsInsert (W : Wx) (mb : List (Int × KeyBinding)) (item : MenuItem)
    (accel : WxString) : List (Int × KeyBinding) :=
  if accel.length = 0 then mb else
  match Find accel SPACE with
  | some _ => mb
  | none => mapSet mb (makeHash W accel) (KeyBinding.ofItem W item)

/-- The menu item after the custom look-up of `ParseMenu(item)`, source lines 134-145:
with a custom entry the text becomes the label, followed by a tab and the entry when
the entry is not empty. -/
def rewriteItem (cm : List (WxString × WxString)) (item : MenuItem) : MenuItem :=
  match mapFind cm (normalize (labelOf item.text)) with
  | some c =>
    { item with
        text := if c.length > 0 then labelOf item.text ++ TAB :: c else labelOf item.text }
  | none => item

/-- The accelerator after the custom look-up and the trim of `ParseMenu(item)`, source
lines 134-146, from the accelerator `base` computed before. -/
def overrideAccel (cm : List (WxString × WxString)) (item : MenuItem) (base : WxString) :
    WxString :=
  match mapFind cm (normalize (labelOf item.text)) with
  | some c => Trim c
  | none => Trim base

/-- The accelerator of `ParseMenu(item)` before the custom look-up, source lines
113-131. -/
def baseAccel (s : State) (item : MenuItem) : WxString :=
  match Find item.text TAB with
  | none => []
  | some _ =>
    if s.m_needDefault then declaredAccel item.text
    else
      match mapFind s.m_defaultBindings (normalize (labelOf item.text)) with
      | some d => d
      | none => declaredAccel item.text

/-- The default map after `ParseMenu(item)`, source lines 119-121. -/
def defaultsAfter (s : State) (item : MenuItem) : List (WxString × WxString) :=
  match Find item.text TAB with
  | none => s.m_defaultBindings
  | some _ =>
    if s.m_needDefault then
      mapSet s.m_defaultBindings (labelOf item.text) (declaredAccel item.text)
    else s.m_defaultBindings

/-! ## Lemmas on maps, strings and the heap -/

theorem mapFind_mapSet_self {K V : Type} [DecidableEq K] (m : List (K × V)) (k : K) (v : V) :
    mapFind (mapSet m k v) k = some v := by
  induction m with
  | nil => simp [mapSet, mapFind]
  | cons a t ih =>
    obtain ⟨k0, v0⟩ := a
    by_cases h : k0 = k
    · simp [mapSet, mapFind, h]
    · simp [mapSet, mapFind, h, ih]

theorem mapFind_mapSet_ne {K V : Type} [DecidableEq K] (m : List (K × V)) (k k1 : K) (v : V)
    (hne : k ≠ k1) : mapFind (mapSet m k v) k1 = mapFind m k1 := by
  induction m with
  | nil => simp [mapSet, mapFind, hne]
  | cons a t ih =>
    obtain ⟨k0, v0⟩ := a
    by_cases h : k0 = k
    · subst h
      simp [mapSet, mapFind, hne]
    · simp only [mapSet, h, if_false, mapFind, ih]

theorem mapFind_mapInsert_self {K V : Type} [DecidableEq K] (m : List (K × V)) (k : K) (v : V)
    (hnone : mapFind m k = none) : mapFind (mapInsert m k v) k = some v := by
  simp [mapInsert, hnone, mapFind_mapSet_self]

theorem Find_append_of_not_mem (A B : WxString) (c : Char) (hA : c ∉ A) :
    Find (A ++ c :: B) c = some A.length := by
  induction A with
  | nil => simp [Find]
  | cons a t ih =>
    have hne : a ≠ c := fun h => hA (by simp [h])
    have ht : c ∉ t := fun h => hA (by simp [h])
    simp [Find, hne, ih ht]

theorem Left_append (A B : WxString) (c : Char) : Left (A ++ c :: B) A.length = A := by
  simp [Left]

theorem Mid_append (A B : WxString) (c : Char) : Mid (A ++ c :: B) (A.length + 1) = B := by
  simp [Mid, List.drop_append_eq_append_drop]

theorem getD_modify_self {α : Type} (l : List α) (f : α → α) (p : Nat) (d : α)
    (hp : p < l.length) : (l.modify f p).getD p d = f (l.getD p d) := by
  rw [List.getD_eq_getElem?_getD, List.getD_eq_getElem?_getD, List.getElem?_modify]
  rw [List.getElem?_eq_getElem hp]
  simp

/-! ## Static chords -/

/-- What `InsertBinding` leaves behind for a chord accelerator `A B`: the static chord
table maps the leader hash to a chord object whose followers map the hash of the
trimmed follower text to the binding of the item; the armed slots are untouched. -/
theorem InsertBinding_chord (W : Wx) (s : State) (item : MenuItem) (A B : WxString)
    (hA : SPACE ∉ A) (hvalid : chordsValid s) :
    ∃ p, mapFind (InsertBinding W s item (A ++ SPACE :: B)).m_chords (makeHash W A) = some p ∧
      mapFind (derefChord (InsertBinding W s item (A ++ SPACE :: B)) p).bindings
        (makeHash W (Trim B)) = some { KeyBinding.ofItem W item with finalKey := Trim B } ∧
      (InsertBinding W s item (A ++ SPACE :: B)).m_activeChord = s.m_activeChord ∧
      (InsertBinding W s item (A ++ SPACE :: B)).m_activeBundleChord = s.m_activeBundleChord := by
  have hlen : (A ++ SPACE :: B).length ≠ 0 := by simp
  unfold InsertBinding
  rw [if_neg hlen, Find_append_of_not_mem A B SPACE hA]
  simp only [Left_append, Mid_append]
  cases hfind : mapFind s.m_chords (makeHash W A) with
  | some p =>
    refine ⟨p, ?_, ?_, rfl, rfl⟩
    · simpa using hfind
    · have hp : p < s.chordHeap.length := hvalid _ _ hfind
      simp only [derefChord]
      rw [getD_modify_self _ _ _ _ hp]
      exact mapFind_mapSet_self _ _ _
  | none =>
    refine ⟨s.chordHeap.length, ?_, ?_, rfl, rfl⟩
    · simpa using mapFind_mapInsert_self _ _ _ hfind
    · simp only [derefChord]
      rw [getD_modify_self _ _ _ _ (by simp)]
      simp [List.getD_eq_getElem?_getD, mapSet, mapFind]

/-- C1. Chord round trip on the static path. A chord accelerator `A B` (no space in
`A`; `B` hashes like its right-trimmed form, as it does when it carries no trailing
white space) is registered by `InsertBinding` for the item with identifier `item.id`,
the leader hash is outside the tab-switch range and no static chord is armed. Then
`MatchMenus` on the leader hash returns true, posts nothing and arms the chord object
the static chord table holds for the leader; the following `MatchMenus` on the
follower hash returns true, posts exactly `item.id` once and leaves both armed slots
empty. -/
theorem C1_chord_round_trip (W : Wx) (s : State) (item : MenuItem) (A B : WxString)
    (hA : SPACE ∉ A) (hB : makeHash W (Trim B) = makeHash W B)
    (hvalid : chordsValid s) (hidle : s.m_activeChord = none)
    (hrange : ¬ (makeHash W ctrl1 ≤ makeHash W A ∧ makeHash W A ≤ makeHash W ctrl9)) :
    (MatchMenus W (InsertBinding W s item (A ++ SPACE :: B)) (makeHash W A)).ret = true ∧
    (MatchMenus W (InsertBinding W s item (A ++ SPACE :: B)) (makeHash W A)).events = [] ∧
    (MatchMenus W (InsertBinding W s item (A ++ SPACE :: B)) (makeHash W A)).state.m_activeChord
      = mapFind (InsertBinding W s item (A ++ SPACE :: B)).m_chords (makeHash W A) ∧
    (MatchMenus W (InsertBinding W s item (A ++ SPACE :: B))
      (makeHash W A)).state.m_activeChord ≠ none ∧
    (MatchMenus W (MatchMenus W (InsertBinding W s item (A ++ SPACE :: B))
      (makeHash W A)).state (makeHash W B)).ret = true ∧
    (MatchMenus W (MatchMenus W (InsertBinding W s item (A ++ SPACE :: B))
      (makeHash W A)).state (makeHash W B)).events = [item.id] ∧
    (MatchMenus W (MatchMenus W (InsertBinding W s item (A ++ SPACE :: B))
      (makeHash W A)).state (makeHash W B)).state.m_activeChord = none ∧
    (MatchMenus W (MatchMenus W (InsertBinding W s item (A ++ SPACE :: B))
      (makeHash W A)).state (makeHash W B)).state.m_activeBundleChord = none := by
  obtain ⟨p, hp, hfol, hact, _⟩ := InsertBinding_chord W s item A B hA hvalid
  generalize InsertBinding W s item (A ++ SPACE :: B) = s1 at hp hfol hact ⊢
  rw [hidle] at hact
  rw [hB] at hfol
  have h1 : MatchMenus W s1 (makeHash W A) = ⟨true, [], { s1 with m_activeChord := some p }⟩ := by
    unfold MatchMenus
    rw [hact]
    simp only [if_neg hrange, hp]
  have hderef : derefChord { s1 with m_activeChord := some p } p = derefChord s1 p := rfl
  have h2 : MatchMenus W { s1 with m_activeChord := some p } (makeHash W B) =
      ⟨true, [item.id], ResetChords (ResetChords { s1 with m_activeChord := some p })⟩ := by
    unfold MatchMenus
    simp only [hderef, hfol, KeyBinding.ofItem]
  rw [h1]
  simp only [h2, hp]
  simp [ResetChords]

/-- C1 at a concrete input: `Ctrl-K Ctrl-B` registered for item 7 on the sample
platform, from the initial state. -/
theorem C1_chord_round_trip_witness :
    (MatchMenus sampleWx (InsertBinding sampleWx initState ⟨7, "Fold\tCtrl-K Ctrl-B".toList, false⟩
      ("Ctrl-K".toList ++ SPACE :: "Ctrl-B".toList)) (makeHash sampleWx "Ctrl-K".toList)).ret = true ∧
    (MatchMenus sampleWx (InsertBinding sampleWx initState ⟨7, "Fold\tCtrl-K Ctrl-B".toList, false⟩
      ("Ctrl-K".toList ++ SPACE :: "Ctrl-B".toList)) (makeHash sampleWx "Ctrl-K".toList)).events = [] ∧
    (MatchMenus sampleWx (MatchMenus sampleWx (InsertBinding sampleWx initState
      ⟨7, "Fold\tCtrl-K Ctrl-B".toList, false⟩ ("Ctrl-K".toList ++ SPACE :: "Ctrl-B".toList))
      (makeHash sampleWx "Ctrl-K".toList)).state (makeHash sampleWx "Ctrl-B".toList)).events = [7] :=
  have h := C1_chord_round_trip sampleWx initState ⟨7, "Fold\tCtrl-K Ctrl-B".toList, false⟩
    "Ctrl-K".toList "Ctrl-B".toList (by decide) (by decide)
    (fun h p hp => by simp [initState, mapFind] at hp) rfl (by decide)
  ⟨h.1, h.2.1, h.2.2.2.2.2.1⟩

/-- C2. An armed static chord consumes the next keystroke: when a static chord is armed
and `h` is not one of its followers, `MatchMenus` returns true, posts nothing
(whatever the flat table, the chord table and the tab-switch range say about `h`) and
leaves the static and the dynamic armed slot empty. -/
theorem C2_armed_chord_consumes (W : Wx) (s : State) (chord : Nat) (h : Int)
    (harmed : s.m_activeChord = some chord)
    (hmiss : mapFind (derefChord s chord).bindings h = none) :
    (MatchMenus W s h).ret = true ∧ (MatchMenus W s h).events = [] ∧
    (MatchMenus W s h).state.m_activeChord = none ∧
    (MatchMenus W s h).state.m_activeBundleChord = none := by
  unfold MatchMenus
  rw [harmed]
  simp only [hmiss]
  simp [ResetChords]

/-- C2 at a concrete input: with `Ctrl-K` armed, `Ctrl-S` (bound in the flat table to
item 9) is consumed without posting anything. -/
theorem C2_armed_chord_consumes_witness :
    sampleArmedState.m_activeChord = some 0 ∧
    (mapFind sampleArmedState.m_bindings (makeHash sampleWx "Ctrl-S".toList)).isSome = true ∧
    (MatchMenus sampleWx sampleArmedState (makeHash sampleWx "Ctrl-S".toList)).events = [] :=
  ⟨by decide, by decide,
    (C2_armed_chord_consumes sampleWx sampleArmedState 0 (makeHash sampleWx "Ctrl-S".toList)
      (by decide) (by decide)).2.1⟩

/-! ## Overrides of menu accelerators -/

/-- C3, the code at a failing input. First traversal of `Save<TAB>Ctrl+S` with the
custom binding `save -> Ctrl+Shift+S`: the default is stored under the raw label
`Save` and the item text becomes `Save<TAB>Ctrl+Shift+S`. After the custom binding is
removed, the next traversal looks the default up under `save`, finds nothing and hands
`Ctrl+Shift+S`, not the default `Ctrl+S`, to `InsertBinding`. -/
theorem C3_default_not_restored :
    (ParseMenuItem sampleWx (ParseMenuBegin saveCustomState) saveItem).1.m_defaultBindings
      = [("Save".toList, "Ctrl+S".toList)] ∧
    (ParseMenuItem sampleWx (ParseMenuBegin saveCustomState) saveItem).2.text
      = "Save\tCtrl+Shift+S".toList ∧
    (ParseMenuAccel
      (ParseMenuBegin
        { (ParseMenuItem sampleWx (ParseMenuBegin saveCustomState) saveItem).1 with
          m_customBindings := [] })
      (ParseMenuItem sampleWx (ParseMenuBegin saveCustomState) saveItem).2).2.2
      = "Ctrl+Shift+S".toList ∧
    (ParseMenuAccel
      (ParseMenuBegin
        { (ParseMenuItem sampleWx (ParseMenuBegin saveCustomState) saveItem).1 with
          m_customBindings := [] })
      (ParseMenuItem sampleWx (ParseMenuBegin saveCustomState) saveItem).2).2.2
      ≠ "Ctrl+S".toList := by
  decide

theorem Find_none_of_not_mem (L : WxString) (c : Char) (hL : c ∉ L) : Find L c = none := by
  induction L with
  | nil => rfl
  | cons a t ih =>
    have hne : a ≠ c := fun h => hL (by simp [h])
    have ht : c ∉ t := fun h => hL (by simp [h])
    simp [Find, hne, ih ht]

/-- With a custom entry `c` for the normalized label, an item text without tab is
resolved to the trimmed `c` and rewritten; the members are unchanged. -/
theorem ParseMenuAccel_custom_plain (s : State) (id : Int) (sep : Bool) (L c : WxString)
    (hL : TAB ∉ L) (hc : mapFind s.m_customBindings (normalize L) = some c) :
    ParseMenuAccel s ⟨id, L, sep⟩ =
      (s, ⟨id, if c.length > 0 then L ++ TAB :: c else L, sep⟩, Trim c) := by
  simp only [ParseMenuAccel, Find_none_of_not_mem L TAB hL, hc]

/-- With a custom entry `c` for the normalized label, an item text `L<TAB>D` is
resolved to the trimmed `c` and rewritten; of the members only the default map can
change. -/
theorem ParseMenuAccel_custom_accel (s : State) (id : Int) (sep : Bool) (L D c : WxString)
    (hL : TAB ∉ L) (hc : mapFind s.m_customBindings (normalize L) = some c) :
    ∃ defaults, ParseMenuAccel s ⟨id, L ++ TAB :: D, sep⟩ =
      ({ s with m_defaultBindings := defaults },
        ⟨id, if c.length > 0 then L ++ TAB :: c else L, sep⟩, Trim c) := by
  by_cases hn : s.m_needDefault = true
  · exact ⟨mapSet s.m_defaultBindings L D, by
      simp [ParseMenuAccel, Find_append_of_not_mem L D TAB hL, Left_append, Mid_append, hn, hc]⟩
  · refine ⟨s.m_defaultBindings, ?_⟩
    simp only [ParseMenuAccel, Find_append_of_not_mem L D TAB hL, Left_append]
    rw [if_neg hn]
    cases hd : mapFind s.m_defaultBindings (normalize L) <;> simp only [hc]

/-- C4. Custom override precedence. When the custom map has an entry `c` for the
normalized label `L` of a menu item (no tab in `L`), `ParseMenu(item)` hands the
right-trimmed `c` to `InsertBinding`, for the item text `L` without accelerator and for
the text `L<TAB>D` with any declared accelerator `D`, whatever the default map holds
and whether or not this is the first traversal (`s` is arbitrary). -/
theorem C4_custom_precedence (W : Wx) (s : State) (id : Int) (L D c : WxString)
    (hL : TAB ∉ L) (hc : mapFind s.m_customBindings (normalize L) = some c) :
    (ParseMenuAccel s ⟨id, L, false⟩).2.2 = Trim c ∧
    (ParseMenuAccel s ⟨id, L ++ TAB :: D, false⟩).2.2 = Trim c ∧
    (ParseMenuItem W s ⟨id, L, false⟩).1 =
      InsertBinding W (ParseMenuAccel s ⟨id, L, false⟩).1
        (ParseMenuAccel s ⟨id, L, false⟩).2.1 (Trim c) ∧
    (ParseMenuItem W s ⟨id, L ++ TAB :: D, false⟩).1 =
      InsertBinding W (ParseMenuAccel s ⟨id, L ++ TAB :: D, false⟩).1
        (ParseMenuAccel s ⟨id, L ++ TAB :: D, false⟩).2.1 (Trim c) := by
  have h1 : (ParseMenuAccel s ⟨id, L, false⟩).2.2 = Trim c := by
    rw [ParseMenuAccel_custom_plain s id false L c hL hc]
  have h2 : (ParseMenuAccel s ⟨id, L ++ TAB :: D, false⟩).2.2 = Trim c := by
    obtain ⟨defaults, hd⟩ := ParseMenuAccel_custom_accel s id false L D c hL hc
    rw [hd]
  refine ⟨h1, h2, ?_, ?_⟩
  · simp only [ParseMenuItem, Bool.false_eq_true, if_false, h1]
  · simp only [ParseMenuItem, Bool.false_eq_true, if_false, h2]

/-- C4 at a concrete input: the custom key `save` applies to the item `&Save` declared
with `Ctrl+S`. -/
theorem C4_custom_precedence_witness :
    normalize "&Save".toList = "save".toList ∧
    (ParseMenuAccel saveCustomState ⟨5, "&Save".toList ++ TAB :: "Ctrl+S".toList, false⟩).2.2
      = "Ctrl+Shift+S".toList :=
  ⟨by decide,
    (C4_custom_precedence sampleWx saveCustomState 5 "&Save".toList "Ctrl+S".toList
      "Ctrl+Shift+S".toList (by decide) (by decide)).2.1⟩

/-- C9 as stated fails: with the white-space-only custom entry `save -> " "` the item
`Save<TAB>Ctrl+S` is not rewritten to the bare label `Save` but to `Save<TAB>` followed
by the space. -/
theorem C9_blank_override_text :
    mapFind saveBlankState.m_customBindings (normalize "Save".toList) = some [SPACE] ∧
    Trim [SPACE] = [] ∧
    (ParseMenuItem sampleWx saveBlankState saveItem).2.text = "Save\t ".toList ∧
    (ParseMenuItem sampleWx saveBlankState saveItem).2.text ≠ "Save".toList := by
  decide

/-- C9, amended. When the custom entry `c` for the normalized label `L` of a menu item
is empty or only white space, `ParseMenu(item)` adds nothing to the static flat
binding table, to the static chord table or to any chord object, whatever accelerator
the item declares (text `L` or `L<TAB>D`) and whatever the default map holds; when `c`
is the empty string the item text becomes the bare label `L`. -/
theorem C9_empty_override_unbinds (W : Wx) (s : State) (id : Int) (L D c text : WxString)
    (hL : TAB ∉ L) (hc : mapFind s.m_customBindings (normalize L) = some c)
    (hblank : Trim c = []) (htext : text = L ∨ text = L ++ TAB :: D) :
    (ParseMenuItem W s ⟨id, text, false⟩).1.m_bindings = s.m_bindings ∧
    (ParseMenuItem W s ⟨id, text, false⟩).1.m_chords = s.m_chords ∧
    (ParseMenuItem W s ⟨id, text, false⟩).1.chordHeap = s.chordHeap ∧
    (c = [] → (ParseMenuItem W s ⟨id, text, false⟩).2.text = L) := by
  rcases htext with h | h
  · subst h
    simp only [ParseMenuItem, Bool.false_eq_true, if_false,
      ParseMenuAccel_custom_plain s id false text c hL hc, hblank, InsertBinding, List.length_nil,
      if_true, true_and]
    intro h0
    simp [h0]
  · subst h
    obtain ⟨defaults, hd⟩ := ParseMenuAccel_custom_accel s id false L D c hL hc
    simp only [ParseMenuItem, Bool.false_eq_true, if_false, hd, hblank, InsertBinding,
      List.length_nil, if_true, true_and]
    intro h0
    simp [h0]

/-- C9 (amended) at a concrete input: `save -> ""` on the item `Save<TAB>Ctrl+S`. -/
theorem C9_empty_override_unbinds_witness :
    (ParseMenuItem sampleWx { initState with m_customBindings := [("save".toList, [])] }
      ⟨5, "Save\tCtrl+S".toList, false⟩).1.m_bindings = [] ∧
    (ParseMenuItem sampleWx { initState with m_customBindings := [("save".toList, [])] }
      ⟨5, "Save\tCtrl+S".toList, false⟩).2.text = "Save".toList :=
  have h := C9_empty_override_unbinds sampleWx
    { initState with m_customBindings := [("save".toList, [])] } 5 "Save".toList "Ctrl+S".toList
    [] "Save\tCtrl+S".toList (by decide) (by decide) (by decide) (Or.inr (by decide))
  ⟨h.1, h.2.2.2 rfl⟩

/-! ## The tab-switch keys -/

theorem makeHash_ctrl1 (W : Wx) (h1 : W.ParseAccel (TAB :: ctrl1) = (wxACCEL_CTRL, 49)) :
    makeHash W ctrl1 = 33554481 := by
  have hc : Contains (MakeLower ctrl1) "win".toList = false := by decide
  simp only [makeHash, h1, hc, Bool.and_false, Bool.false_eq_true, if_false]
  decide

theorem makeHash_ctrl9 (W : Wx) (h9 : W.ParseAccel (TAB :: ctrl9) = (wxACCEL_CTRL, 57)) :
    makeHash W ctrl9 = 33554489 := by
  have hc : Contains (MakeLower ctrl9) "win".toList = false := by decide
  simp only [makeHash, h9, hc, Bool.and_false, Bool.false_eq_true, if_false]
  decide

/-- C5. Tab-switch special case. `ParseAccel` reads `Ctrl-1` and `Ctrl-9` as the Ctrl
flag with the character codes of `1` and `9`, and no static chord is armed. Then for
every digit `d` in 1..9 the hash of Ctrl+`d` (Ctrl flag shifted left 24, or-ed with the
character code `48 + d`) makes `MatchMenus` return true, post exactly `40000 + (d - 1)`
and leave both armed slots empty, whatever the static tables hold; and a hash outside
`hash(Ctrl-1) .. hash(Ctrl-9)` is resolved by the tables alone. -/
theorem C5_tab_switch (W : Wx) (s : State)
    (h1 : W.ParseAccel (TAB :: ctrl1) = (wxACCEL_CTRL, 49))
    (h9 : W.ParseAccel (TAB :: ctrl9) = (wxACCEL_CTRL, 57))
    (hidle : s.m_activeChord = none) :
    (∀ d : Nat, 1 ≤ d → d ≤ 9 →
      (MatchMenus W s (hashOf wxACCEL_CTRL (48 + (d : Int)))).ret = true ∧
      (MatchMenus W s (hashOf wxACCEL_CTRL (48 + (d : Int)))).events = [40000 + ((d : Int) - 1)] ∧
      (MatchMenus W s (hashOf wxACCEL_CTRL (48 + (d : Int)))).state.m_activeChord = none ∧
      (MatchMenus W s (hashOf wxACCEL_CTRL (48 + (d : Int)))).state.m_activeBundleChord = none) ∧
    (∀ h : Int, ¬ (hashOf wxACCEL_CTRL 49 ≤ h ∧ h ≤ hashOf wxACCEL_CTRL 57) →
      MatchMenus W s h = MatchMenusTables s h) := by
  have e1 := makeHash_ctrl1 W h1
  have e9 := makeHash_ctrl9 W h9
  constructor
  · intro d hd1 hd9
    have hh : hashOf wxACCEL_CTRL (48 + (d : Int)) = 33554480 + (d : Int) := by
      interval_cases d <;> decide
    have hin : (33554481 : Int) ≤ 33554480 + (d : Int) ∧ 33554480 + (d : Int) ≤ 33554489 := by
      constructor <;> omega
    have hid : Int.bmod (Int.bmod (33554480 + (d : Int) - 33554481) (2 ^ 32) + 40000) (2 ^ 32)
        = 40000 + ((d : Int) - 1) := by
      interval_cases d <;> decide
    simp only [MatchMenus, hidle, e1, e9, hh, hin, and_self, if_true, hid, ResetChords, true_and]
  · intro h hout
    have hlo : hashOf wxACCEL_CTRL 49 = 33554481 := by decide
    have hhi : hashOf wxACCEL_CTRL 57 = 33554489 := by decide
    rw [hlo, hhi] at hout
    simp only [MatchMenus, hidle, e1, e9, if_neg hout, MatchMenusTables]

/-- C5 at a concrete input: on the sample platform, with `Ctrl-3` also bound in the
flat table to item 9, `Ctrl-3` posts 40002. -/
theorem C5_tab_switch_witness :
    (mapFind (InsertBinding sampleWx initState ⟨9, "Third\tCtrl-3".toList, false⟩
      "Ctrl-3".toList).m_bindings (hashOf wxACCEL_CTRL 51)).isSome = true ∧
    (MatchMenus sampleWx (InsertBinding sampleWx initState ⟨9, "Third\tCtrl-3".toList, false⟩
      "Ctrl-3".toList) (hashOf wxACCEL_CTRL (48 + ((3 : Nat) : Int)))).events
      = [40000 + (((3 : Nat) : Int) - 1)] :=
  ⟨by decide,
    ((C5_tab_switch sampleWx (InsertBinding sampleWx initState ⟨9, "Third\tCtrl-3".toList, false⟩
      "Ctrl-3".toList) (by decide) (by decide) (by decide)).1 3 (by decide) (by decide)).2.1⟩

/-! ## Bundle chords and the static path -/

/-- C6, the code at a failing input. After the first `Ctrl-K` the dynamic chord of
leader `Ctrl-K` is armed, no static chord is, `Ctrl-K` is not one of its followers and
the static flat table binds `Ctrl-K` to item 77. On the second `Ctrl-K` Pass A returns
false, the reconciliation returns false, and `MatchMenus` on the resulting state posts
77. -/
theorem C6_static_binding_posted :
    wrapKillArmed.m_activeBundleChord = some 0 ∧
    (derefBundleChord wrapKillArmed 0).hash = hashOf 2 75 ∧
    wrapKillArmed.m_activeChord = none ∧
    mapFind (derefBundleChord wrapKillArmed 0).bindings (hashOf 2 75) = none ∧
    (mapFind wrapKillArmed.m_bindings (hashOf 2 75)).map KeyBinding.id = some 77 ∧
    (BundlesParsed sampleWx (ParseBundles sampleWx wrapKillArmed wrapAction) 75 2).1 = false ∧
    (WasChordActivated (BundlesParsed sampleWx (ParseBundles sampleWx wrapKillArmed wrapAction)
      75 2).2).1 = false ∧
    (MatchMenus sampleWx wrapKillSecond (hashOf 2 75)).events = [77] := by
  decide

/-- C7, the code at a failing input. The armed dynamic chord is the one of leader
`Ctrl-K`; on `Ctrl-B` Pass A sets "searching dynamic chords", and Pass B confirms
`Wrap` (`Ctrl-K Ctrl-B`) and also `Join`, whose leader `Ctrl-J` is not the armed
chord. -/
theorem C7_other_leader_confirmed :
    wrapJoinSecond.m_activeBundleChord = some 0 ∧
    (derefBundleChord wrapJoinSecond 0).hash = makeHash sampleWx "Ctrl-K".toList ∧
    (ParseBundleForHash sampleWx wrapJoinSecond joinAction []).2.1
      = makeHash sampleWx "Ctrl-J".toList ∧
    makeHash sampleWx "Ctrl-J".toList ≠ makeHash sampleWx "Ctrl-K".toList ∧
    mapFind wrapJoinSecond.m_bundleChords (makeHash sampleWx "Ctrl-J".toList) ≠ some 0 ∧
    wrapJoinSecond.m_searchBundleChords = true ∧
    (MatchBundle sampleWx wrapJoinSecond 66 2 wrapAction).1 = true ∧
    (MatchBundle sampleWx wrapJoinSecond 66 2 joinAction).1 = true := by
  decide

/-! ## Reconciliation with a dynamic chord armed -/

/-- C8 as stated fails: with the dynamic chord of leader `Ctrl-K` armed, the key
`Ctrl-K` (not a modifier key, not a follower) leaves the dynamic chord armed after
Pass A and the reconciliation. -/
theorem C8_mismatch_stays_armed :
    wrapArmedRegistered.m_activeBundleChord = some 0 ∧
    shouldIgnore sampleWx 75 = false ∧
    (WasChordActivated (BundlesParsed sampleWx wrapArmedRegistered 75 2).2).2.m_activeBundleChord
      = some 0 ∧
    (WasChordActivated (BundlesParsed sampleWx wrapArmedRegistered 75 2).2).2.m_activeBundleChord
      ≠ none := by
  decide

/-- C8, amended. With a dynamic chord armed and a key that is not a modifier key,
Pass A followed by the reconciliation leaves both armed slots empty when the event hash
is a follower of the armed chord, and leaves both slots as they were (the dynamic chord
still armed) when it is not. -/
theorem C8_reconciliation_after_dynamic_chord (W : Wx) (s : State) (active : Nat)
    (code flags : Int) (harmed : s.m_activeBundleChord = some active)
    (hkey : shouldIgnore W code = false) :
    (mapFind (derefBundleChord s active).bindings (hashOf flags code) ≠ none →
      (WasChordActivated (BundlesParsed W s code flags).2).2.m_activeChord = none ∧
      (WasChordActivated (BundlesParsed W s code flags).2).2.m_activeBundleChord = none) ∧
    (mapFind (derefBundleChord s active).bindings (hashOf flags code) = none →
      (WasChordActivated (BundlesParsed W s code flags).2).2.m_activeChord = s.m_activeChord ∧
      (WasChordActivated (BundlesParsed W s code flags).2).2.m_activeBundleChord
        = some active) := by
  constructor
  · intro hfol
    obtain ⟨b, hb⟩ := Option.ne_none_iff_exists'.mp hfol
    simp [BundlesParsed, hkey, harmed, hb, WasChordActivated, Reset]
  · intro hmiss
    simp [BundlesParsed, hkey, harmed, hmiss, WasChordActivated, Reset]

/-- C8 (amended) at a concrete input: with the chord of leader `Ctrl-K` armed, the
follower `Ctrl-B` disarms. -/
theorem C8_reconciliation_after_dynamic_chord_witness :
    mapFind (derefBundleChord wrapArmedRegistered 0).bindings (hashOf 2 66) ≠ none ∧
    (WasChordActivated (BundlesParsed sampleWx wrapArmedRegistered 66 2).2).2.m_activeBundleChord
      = none :=
  ⟨by decide,
    ((C8_reconciliation_after_dynamic_chord sampleWx wrapArmedRegistered 0 66 2
      (by decide) (by decide)).1 (by decide)).2⟩

/-! ## An empty custom entry for a bundle action -/

/-- C10 as stated fails: with the custom entry `wrap -> ""`, registering the action
`Wrap` (own key `Ctrl-K`) adds the hash of `Ctrl-K` to the bundle flat table, Pass A
on `Ctrl-K` reports a match through that table, and Pass B confirms the action. -/
theorem C10_empty_override_still_bound :
    mapFind wrapEmptyState.m_customBindings (normalize wrapKeyAction.name) = some [] ∧
    (ParseBundles sampleWx wrapEmptyState wrapKeyAction).m_bundleBindings
      = [(hashOf 2 75, true)] ∧
    (BundlesParsed sampleWx (ParseBundles sampleWx wrapEmptyState wrapKeyAction) 75 2).1 = true ∧
    (MatchBundle sampleWx
      (BundlesParsed sampleWx (ParseBundles sampleWx wrapEmptyState wrapKeyAction) 75 2).2
      75 2 wrapKeyAction).1 = true := by
  decide

/-- C10, amended. When the custom entry for the normalized name of a bundle action is
the empty string, `ParseBundles` adds the flat entry for the hash of the action's own
key and nothing to the bundle chord table or to a chord object, and `MatchBundle`
confirms the action (for a key that is not a modifier key) exactly when "searching
dynamic bindings" is set and the event hash is the hash of the action's own key. -/
theorem C10_empty_override_keeps_own_key (W : Wx) (s : State) (x : tmAction)
    (hc : mapFind s.m_customBindings (normalize x.name) = some []) :
    (ParseBundles W s x).m_bundleBindings
      = mapSet s.m_bundleBindings (hashOf x.key.modifiers x.key.keyCode) true ∧
    (ParseBundles W s x).m_bundleChords = s.m_bundleChords ∧
    (ParseBundles W s x).bundleChordHeap = s.bundleChordHeap ∧
    (∀ code flags : Int, shouldIgnore W code = false →
      ((MatchBundle W s code flags x).1 = true ↔
        (s.m_searchBundleBindings = true ∧
          hashOf flags code = hashOf x.key.modifiers x.key.keyCode))) := by
  have hp : ∀ out, ParseBundleForHash W s x out =
      ({ s with m_customBindings := mapSet s.m_customBindings (normalize x.name) [] },
        -1, hashOf x.key.modifiers x.key.keyCode, out) := by
    intro out
    simp [ParseBundleForHash, hc, Trim]
  refine ⟨?_, ?_, ?_, ?_⟩
  · simp [ParseBundles, hp]
  · simp [ParseBundles, hp]
  · simp [ParseBundles, hp]
  · intro code flags hkey
    simp only [MatchBundle, hkey, hp, Bool.false_eq_true, if_false]
    cases hflag : s.m_searchBundleBindings <;> simp

/-- C10 (amended) at a concrete input: `wrap -> ""` and the action `Wrap` with the key
`Ctrl-K`. -/
theorem C10_empty_override_keeps_own_key_witness :
    (ParseBundles sampleWx wrapEmptyState wrapKeyAction).m_bundleBindings
      = mapSet wrapEmptyState.m_bundleBindings (hashOf 2 75) true :=
  (C10_empty_override_keeps_own_key sampleWx wrapEmptyState wrapKeyAction (by decide)).1

/-! ## The key hash -/

theorem lor_shiftLeft_natCast (m c : Nat) (hc : c < 2 ^ 24) :
    Int.lor ((m : Int) <<< (24 : Int)) (c : Int) = ((m * 2 ^ 24 + c : Nat) : Int) := by
  have h24 : ((24 : Nat) : Int) = (24 : Int) := rfl
  rw [← h24, Int.shiftLeft_coe_nat]
  show ((m <<< 24 ||| c : Nat) : Int) = _
  rw [Nat.shiftLeft_eq, Nat.mul_comm m, Nat.mul_add_lt_is_or hc]

/-- The unsigned 32-bit pattern of the hash of a modifier mask below `2^8` and a key
code below `2^24` is `m * 2^24 + c`. -/
theorem hashOf_emod (m c : Int) (hm : 0 ≤ m ∧ m < 2 ^ 8) (hc : 0 ≤ c ∧ c < 2 ^ 24) :
    hashOf m c % 2 ^ 32 = m * 2 ^ 24 + c := by
  obtain ⟨m, rfl⟩ := Int.eq_ofNat_of_zero_le hm.1
  obtain ⟨c, rfl⟩ := Int.eq_ofNat_of_zero_le hc.1
  have hm2 : m < 2 ^ 8 := by exact_mod_cast hm.2
  have hc2 : c < 2 ^ 24 := by exact_mod_cast hc.2
  unfold hashOf
  rw [lor_shiftLeft_natCast m c hc2]
  have hpow : (((2 ^ 32 : Nat) : Int)) = (2 : Int) ^ 32 := by norm_num
  rw [← hpow, Int.bmod_emod]
  have hlt : m * 2 ^ 24 + c < 2 ^ 32 := by omega
  have h0 : ((m * 2 ^ 24 + c : Nat) : Int) % ((2 ^ 32 : Nat) : Int) = ((m * 2 ^ 24 + c : Nat) : Int) := by
    rw [← Int.ofNat_emod, Nat.mod_eq_of_lt hlt]
  rw [h0]
  push_cast
  ring

/-- C11. Key-hash injectivity. For modifier masks in `[0, 2^8)` and key codes in
`[0, 2^24)` the 32-bit hashes `(m1 << 24) | c1` and `(m2 << 24) | c2` are equal exactly
when `m1 = m2` and `c1 = c2`; the high 8 bits of the 32-bit hash are the modifier mask
and its low 24 bits are the key code. -/
theorem C11_hash_injective (m1 m2 c1 c2 : Int)
    (hm1 : 0 ≤ m1 ∧ m1 < 2 ^ 8) (hm2 : 0 ≤ m2 ∧ m2 < 2 ^ 8)
    (hc1 : 0 ≤ c1 ∧ c1 < 2 ^ 24) (hc2 : 0 ≤ c2 ∧ c2 < 2 ^ 24) :
    (hashOf m1 c1 = hashOf m2 c2 ↔ m1 = m2 ∧ c1 = c2) ∧
    hashOf m1 c1 % 2 ^ 32 / 2 ^ 24 = m1 ∧
    hashOf m1 c1 % 2 ^ 24 = c1 := by
  have e1 := hashOf_emod m1 c1 hm1 hc1
  have e2 := hashOf_emod m2 c2 hm2 hc2
  refine ⟨⟨fun h => ?_, fun h => by rw [h.1, h.2]⟩, ?_, ?_⟩
  · have h3 : m1 * 2 ^ 24 + c1 = m2 * 2 ^ 24 + c2 := by rw [← e1, ← e2, h]
    constructor <;> omega
  · rw [e1]
    omega
  · have hdvd : ((2 : Int) ^ 24) ∣ 2 ^ 32 := ⟨2 ^ 8, by norm_num⟩
    rw [← Int.emod_emod_of_dvd _ hdvd, e1]
    omega

/-- C11 at a concrete input: Ctrl+Shift (mask 6) with `S` (code 83) against Ctrl (mask
2) with `S`. -/
theorem C11_hash_injective_witness :
    (hashOf 6 83 = hashOf 2 83 ↔ (6 : Int) = 2 ∧ (83 : Int) = 83) ∧
    hashOf 6 83 % 2 ^ 32 / 2 ^ 24 = 6 ∧ hashOf 6 83 % 2 ^ 24 = 83 :=
  C11_hash_injective 6 2 83 83 (by decide) (by decide) (by decide) (by decide)

/-! ## The static path within a keystroke cycle -/

/-- After the reconciliation the four per-cycle flags are false and both bundle tables
are empty. -/
theorem WasChordActivated_flags (s : State) :
    (WasChordActivated s).2.m_chordActivated = false ∧
    (WasChordActivated s).2.m_actionReturned = false ∧
    (WasChordActivated s).2.m_searchBundleBindings = false ∧
    (WasChordActivated s).2.m_searchBundleChords = false ∧
    (WasChordActivated s).2.m_bundleChords = [] ∧
    (WasChordActivated s).2.m_bundleBindings = [] := by
  simp [WasChordActivated, Reset]

/-- Whenever `MatchMenus` posts an identifier it has emptied both armed slots and left
the four per-cycle flags as they were. -/
theorem MatchMenus_posted (W : Wx) (s : State) (h : Int)
    (hposted : (MatchMenus W s h).events ≠ []) :
    (MatchMenus W s h).state.m_activeChord = none ∧
    (MatchMenus W s h).state.m_activeBundleChord = none ∧
    (MatchMenus W s h).state.m_chordActivated = s.m_chordActivated ∧
    (MatchMenus W s h).state.m_actionReturned = s.m_actionReturned ∧
    (MatchMenus W s h).state.m_searchBundleBindings = s.m_searchBundleBindings ∧
    (MatchMenus W s h).state.m_searchBundleChords = s.m_searchBundleChords := by
  unfold MatchMenus at hposted ⊢
  cases hact : s.m_activeChord with
  | some chord =>
    simp only [hact] at hposted ⊢
    cases hfol : mapFind (derefChord s chord).bindings h with
    | some binding => simp [ResetChords]
    | none => simp [hfol] at hposted
  | none =>
    simp only [hact] at hposted ⊢
    by_cases hr : makeHash W ctrl1 ≤ h ∧ h ≤ makeHash W ctrl9
    · simp [hr, ResetChords]
    · simp only [if_neg hr] at hposted ⊢
      cases hch : mapFind s.m_chords h with
      | some chord => simp [hch] at hposted
      | none =>
        simp only [hch] at hposted ⊢
        cases hb : mapFind s.m_bindings h with
        | some binding => simp [ResetChords]
        | none => simp [hb] at hposted

/-- C12. Full-cycle reset. In a keystroke cycle (Pass A `BundlesParsed`, then the
reconciliation `WasChordActivated`, then the static path `MatchMenus`), whenever the
static path posts an identifier (chord follower, tab switch or flat binding) both armed
slots are empty, the four per-cycle flags are false and `StatusBarText` is the empty
string. -/
theorem C12_full_cycle_reset (W : Wx) (s : State) (code flags h : Int)
    (hposted :
      (MatchMenus W (WasChordActivated (BundlesParsed W s code flags).2).2 h).events ≠ []) :
    (MatchMenus W (WasChordActivated (BundlesParsed W s code flags).2).2 h).state.m_activeChord
      = none ∧
    (MatchMenus W (WasChordActivated (BundlesParsed W s code
      flags).2).2 h).state.m_activeBundleChord = none ∧
    (MatchMenus W (WasChordActivated (BundlesParsed W s code
      flags).2).2 h).state.m_chordActivated = false ∧
    (MatchMenus W (WasChordActivated (BundlesParsed W s code
      flags).2).2 h).state.m_actionReturned = false ∧
    (MatchMenus W (WasChordActivated (BundlesParsed W s code
      flags).2).2 h).state.m_searchBundleBindings = false ∧
    (MatchMenus W (WasChordActivated (BundlesParsed W s code
      flags).2).2 h).state.m_searchBundleChords = false ∧
    StatusBarText (MatchMenus W (WasChordActivated (BundlesParsed W s code
      flags).2).2 h).state = [] := by
  obtain ⟨f1, f2, f3, f4, _, _⟩ := WasChordActivated_flags (BundlesParsed W s code flags).2
  generalize (WasChordActivated (BundlesParsed W s code flags).2).2 = t at hposted f1 f2 f3 f4 ⊢
  obtain ⟨a1, a2, g1, g2, g3, g4⟩ := MatchMenus_posted W t h hposted
  refine ⟨a1, a2, by rw [g1, f1], by rw [g2, f2], by rw [g3, f3], by rw [g4, f4], ?_⟩
  simp only [StatusBarText, a1, a2]

/-- C12 at a concrete input: in the state with `Ctrl-K` armed, the cycle on `Ctrl-B`
(key code 66, modifiers 2) posts 7 and the status text is empty afterwards. -/
theorem C12_full_cycle_reset_witness :
    (MatchMenus sampleWx (WasChordActivated (BundlesParsed sampleWx sampleArmedState 66 2).2).2
      (hashOf 2 66)).events = [7] ∧
    StatusBarText (MatchMenus sampleWx (WasChordActivated (BundlesParsed sampleWx
      sampleArmedState 66 2).2).2 (hashOf 2 66)).state = [] :=
  ⟨by decide,
    (C12_full_cycle_reset sampleWx sampleArmedState 66 2 (hashOf 2 66) (by decide)).2.2.2.2.2.2⟩

/-- C13. Idempotence of the flat look-up. With no chord armed, for a hash bound in the
static flat table that is not a static chord leader and lies outside the tab-switch
range, `MatchMenus` returns true, posts the identifier bound to the hash and leaves
every member as it was (tables and the empty armed slots); a second `MatchMenus` on the
same hash does the same. -/
theorem C13_flat_lookup_idempotent (W : Wx) (s : State) (h : Int) (b : KeyBinding)
    (hstatic : s.m_activeChord = none) (hdynamic : s.m_activeBundleChord = none)
    (hflat : mapFind s.m_bindings h = some b) (hleader : mapFind s.m_chords h = none)
    (hrange : ¬ (makeHash W ctrl1 ≤ h ∧ h ≤ makeHash W ctrl9)) :
    MatchMenus W s h = ⟨true, [b.id], s⟩ ∧
    MatchMenus W (MatchMenus W s h).state h = ⟨true, [b.id], s⟩ := by
  have hreset : ResetChords s = s := by
    cases s
    simp_all [ResetChords]
  have h1 : MatchMenus W s h = ⟨true, [b.id], s⟩ := by
    unfold MatchMenus
    simp only [hstatic, if_neg hrange, hleader, hflat, hreset]
  refine ⟨h1, ?_⟩
  rw [h1]
  exact h1

/-- C13 at a concrete input: `Ctrl-S` bound to item 9 on the sample platform. -/
theorem C13_flat_lookup_idempotent_witness :
    (MatchMenus sampleWx (MatchMenus sampleWx
      (InsertBinding sampleWx initState ⟨9, "Save\tCtrl-S".toList, false⟩ "Ctrl-S".toList)
      (hashOf 2 83)).state (hashOf 2 83)).events = [9] :=
  congrArg Outcome.events
    (C13_flat_lookup_idempotent sampleWx
      (InsertBinding sampleWx initState ⟨9, "Save\tCtrl-S".toList, false⟩ "Ctrl-S".toList)
      (hashOf 2 83) ⟨sampleGetLabel "Save\tCtrl-S".toList, "Ctrl-S".toList, [], 9⟩
      (by decide) (by decide) (by decide) (by decide) (by decide)).2

/-! ## Modifier keys, status text, Pass A, reconciliation, the unhandled key -/

/-- C15. Modifier-only keystrokes are inert. `shouldIgnore` is true exactly for the
five key codes Control, Alt, Shift, left Windows and right Windows; for such a code, in
every state and with every modifier mask, `BundlesParsed` returns true, `MatchBundle`
returns false, `HandleKeyEvent` returns true and posts nothing, and every member is
left as it was (an armed chord stays armed). -/
theorem C15_modifier_keys_inert (W : Wx) (s : State) (code flags modifiers : Int)
    (x : tmAction) (lwin rwin : Bool) :
    (shouldIgnore W code = true ↔
      (code = W.WXK_CONTROL ∨ code = W.WXK_ALT ∨ code = W.WXK_SHIFT ∨
        code = W.WXK_WINDOWS_LEFT ∨ code = W.WXK_WINDOWS_RIGHT)) ∧
    (shouldIgnore W code = true →
      BundlesParsed W s code flags = (true, s) ∧
      MatchBundle W s code flags x = (false, s) ∧
      HandleKeyEvent W s modifiers code lwin rwin = ⟨true, [], s⟩) := by
  constructor
  · simp [shouldIgnore, or_assoc]
  · intro hkey
    simp [BundlesParsed, MatchBundle, HandleKeyEvent, hkey]

/-- C15 at a concrete input: the Shift key (code 306) with `Ctrl-K` armed. -/
theorem C15_modifier_keys_inert_witness :
    shouldIgnore sampleWx 306 = true ∧
    (HandleKeyEvent sampleWx sampleArmedState 4 306 false false).state.m_activeChord = some 0 :=
  ⟨by decide,
    (congrArg (fun o => o.state.m_activeChord)
      (((C15_modifier_keys_inert sampleWx sampleArmedState 306 4 4 wrapAction false false).2
        (by decide)).2.2)).trans (by decide)⟩

/-- C16. Status text. `StatusBarText` is the empty string exactly when neither a static
nor a dynamic chord is armed; with a static chord armed it is `Chord `, the leader text
of that chord, ` active`; with only a dynamic chord armed it is the same with the
leader text of the dynamic chord. (It is a function of the members and changes
none.) -/
theorem C16_status_text (s : State) :
    (StatusBarText s = [] ↔ (s.m_activeChord = none ∧ s.m_activeBundleChord = none)) ∧
    (∀ chord, s.m_activeChord = some chord →
      StatusBarText s = "Chord ".toList ++ (derefChord s chord).key ++ " active".toList) ∧
    (∀ chord, s.m_activeChord = none → s.m_activeBundleChord = some chord →
      StatusBarText s =
        "Chord ".toList ++ (derefBundleChord s chord).key ++ " active".toList) := by
  refine ⟨?_, ?_, ?_⟩
  · unfold StatusBarText
    cases h1 : s.m_activeChord with
    | some chord => simp
    | none =>
      cases h2 : s.m_activeBundleChord with
      | some chord => simp
      | none => simp
  · intro chord h1
    simp only [StatusBarText, h1]
  · intro chord h1 h2
    simp only [StatusBarText, h1, h2]

/-- C16 at a concrete input: with `Ctrl-K` armed the text is `Chord Ctrl-K active`. -/
theorem C16_status_text_witness :
    StatusBarText sampleArmedState = "Chord Ctrl-K active".toList :=
  ((C16_status_text sampleArmedState).2.1 0 (by decide)).trans (by decide)

/-- C17. Pass A from idle. With no chord armed, the four per-cycle flags false and a
key that is not a modifier key, `BundlesParsed` arms the static slot with the entry of
the static chord table for the event hash (if any) and the dynamic slot with the entry
of the dynamic chord table (if any); "chord activated" is set exactly when one of the
two exists; "searching dynamic bindings" and "action returned" are set exactly when
neither exists and the dynamic flat table has the hash; the return value is true
exactly when one of the three tables has the hash. -/
theorem C17_pass_A_from_idle (W : Wx) (s : State) (code flags : Int)
    (hstatic : s.m_activeChord = none) (hdynamic : s.m_activeBundleChord = none)
    (hf1 : s.m_chordActivated = false) (hf2 : s.m_actionReturned = false)
    (hf3 : s.m_searchBundleBindings = false) (_hf4 : s.m_searchBundleChords = false)
    (hkey : shouldIgnore W code = false) :
    (BundlesParsed W s code flags).2.m_activeChord = mapFind s.m_chords (hashOf flags code) ∧
    (BundlesParsed W s code flags).2.m_activeBundleChord
      = mapFind s.m_bundleChords (hashOf flags code) ∧
    ((BundlesParsed W s code flags).2.m_chordActivated = true ↔
      (mapFind s.m_chords (hashOf flags code) ≠ none ∨
        mapFind s.m_bundleChords (hashOf flags code) ≠ none)) ∧
    ((BundlesParsed W s code flags).2.m_searchBundleBindings = true ↔
      (mapFind s.m_chords (hashOf flags code) = none ∧
        mapFind s.m_bundleChords (hashOf flags code) = none ∧
        mapFind s.m_bundleBindings (hashOf flags code) ≠ none)) ∧
    ((BundlesParsed W s code flags).2.m_actionReturned = true ↔
      (mapFind s.m_chords (hashOf flags code) = none ∧
        mapFind s.m_bundleChords (hashOf flags code) = none ∧
        mapFind s.m_bundleBindings (hashOf flags code) ≠ none)) ∧
    ((BundlesParsed W s code flags).1 = true ↔
      (mapFind s.m_chords (hashOf flags code) ≠ none ∨
        mapFind s.m_bundleChords (hashOf flags code) ≠ none ∨
        mapFind s.m_bundleBindings (hashOf flags code) ≠ none)) := by
  unfold BundlesParsed
  simp only [hkey, Bool.false_eq_true, if_false, hstatic, hdynamic]
  cases hbc : mapFind s.m_bundleChords (hashOf flags code) <;>
    cases hc : mapFind s.m_chords (hashOf flags code) <;>
    cases hbb : mapFind s.m_bundleBindings (hashOf flags code) <;>
    simp [hstatic, hdynamic, hf1, hf2, hf3]

/-- C17 at a concrete input: from the initial state with the chord `Ctrl-K Ctrl-B` of
the action `Wrap` registered, `Ctrl-K` arms the dynamic slot only. -/
theorem C17_pass_A_from_idle_witness :
    (BundlesParsed sampleWx (ParseBundles sampleWx wrapKillState wrapAction) 75 2).2.m_activeChord
      = none ∧
    (BundlesParsed sampleWx (ParseBundles sampleWx wrapKillState wrapAction)
      75 2).2.m_activeBundleChord = some 0 :=
  have h := C17_pass_A_from_idle sampleWx (ParseBundles sampleWx wrapKillState wrapAction) 75 2
    (by decide) (by decide) (by decide) (by decide) (by decide) (by decide) (by decide)
  ⟨h.1.trans (by decide), h.2.1.trans (by decide)⟩

/-- C18. Reconciliation result and flag reset. `WasChordActivated` returns the
"chord activated" flag; afterwards the four per-cycle flags are false and both bundle
tables are empty, and a call repeated at once returns false. After a Pass A that began
with "chord activated" false, the flag is true exactly when the key was not a modifier
key, no chord was armed and the event hash is in the static or the dynamic chord
table, that is when this Pass A armed a chord from idle. -/
theorem C18_reconciliation (W : Wx) (s : State) (code flags : Int) :
    (WasChordActivated s).1 = s.m_chordActivated ∧
    (WasChordActivated s).2.m_chordActivated = false ∧
    (WasChordActivated s).2.m_actionReturned = false ∧
    (WasChordActivated s).2.m_searchBundleBindings = false ∧
    (WasChordActivated s).2.m_searchBundleChords = false ∧
    (WasChordActivated s).2.m_bundleChords = [] ∧
    (WasChordActivated s).2.m_bundleBindings = [] ∧
    (WasChordActivated (WasChordActivated s).2).1 = false ∧
    (s.m_chordActivated = false →
      ((WasChordActivated (BundlesParsed W s code flags).2).1 = true ↔
        (shouldIgnore W code = false ∧ s.m_activeChord = none ∧
          s.m_activeBundleChord = none ∧
          (mapFind s.m_chords (hashOf flags code) ≠ none ∨
            mapFind s.m_bundleChords (hashOf flags code) ≠ none)))) := by
  refine ⟨rfl, by simp [WasChordActivated, Reset], by simp [WasChordActivated, Reset],
    by simp [WasChordActivated, Reset], by simp [WasChordActivated, Reset],
    by simp [WasChordActivated, Reset], by simp [WasChordActivated, Reset],
    by simp [WasChordActivated, Reset], ?_⟩
  intro hf
  show (BundlesParsed W s code flags).2.m_chordActivated = true ↔ _
  unfold BundlesParsed
  cases hkey : shouldIgnore W code
  · cases hd : s.m_activeBundleChord with
    | some active => simp [hd, hf]
    | none =>
      cases hsc : s.m_activeChord with
      | some chord => simp [hd, hsc, hf]
      | none =>
        cases hbc : mapFind s.m_bundleChords (hashOf flags code) <;>
          cases hc : mapFind s.m_chords (hashOf flags code) <;>
          cases hbb : mapFind s.m_bundleBindings (hashOf flags code) <;>
          simp [hd, hsc, hf, hbc, hc, hbb]
  · simp [hf]

/-- C18 at a concrete input: after Pass A on `Ctrl-K` armed the dynamic chord, the
reconciliation returns true. -/
theorem C18_reconciliation_witness :
    (WasChordActivated (BundlesParsed sampleWx (ParseBundles sampleWx wrapKillState wrapAction)
      75 2).2).1 = true :=
  ((C18_reconciliation sampleWx (ParseBundles sampleWx wrapKillState wrapAction) 75
    2).2.2.2.2.2.2.2.2 (by decide)).mpr (by decide)

/-- C19. Static path "not handled". `MatchMenus` returns false exactly when no static
chord is armed, the hash lies outside the tab-switch range, and neither the static chord
table nor the static flat table has it; in that case nothing is posted and both armed
slots are empty afterwards. In every other case it returns true. -/
theorem C19_not_handled (W : Wx) (s : State) (h : Int) :
    ((MatchMenus W s h).ret = false ↔
      (s.m_activeChord = none ∧ ¬ (makeHash W ctrl1 ≤ h ∧ h ≤ makeHash W ctrl9) ∧
        mapFind s.m_chords h = none ∧ mapFind s.m_bindings h = none)) ∧
    ((MatchMenus W s h).ret = false →
      (MatchMenus W s h).events = [] ∧
      (MatchMenus W s h).state.m_activeChord = none ∧
      (MatchMenus W s h).state.m_activeBundleChord = none) ∧
    ((MatchMenus W s h).ret ≠ false → (MatchMenus W s h).ret = true) := by
  unfold MatchMenus
  cases hact : s.m_activeChord with
  | some chord =>
    cases hfol : mapFind (derefChord s chord).bindings h <;> simp [hfol]
  | none =>
    by_cases hr : makeHash W ctrl1 ≤ h ∧ h ≤ makeHash W ctrl9
    · simp [hr]
    · cases hch : mapFind s.m_chords h <;> cases hb : mapFind s.m_bindings h <;>
        simp [hr, hch, hb, ResetChords]

/-- C19 at a concrete input: from the initial state the key `Ctrl-S` is not handled. -/
theorem C19_not_handled_witness :
    (MatchMenus sampleWx initState (hashOf 2 83)).ret = false ∧
    (MatchMenus sampleWx initState (hashOf 2 83)).events = [] :=
  have hret : (MatchMenus sampleWx initState (hashOf 2 83)).ret = false :=
    (C19_not_handled sampleWx initState (hashOf 2 83)).1.mpr (by decide)
  ⟨hret, ((C19_not_handled sampleWx initState (hashOf 2 83)).2.1 hret).1⟩

/-! ## Registration of bundle actions and Pass B -/

theorem Trim_idem (s : WxString) : Trim (Trim s) = Trim s := by
  simp [Trim, List.dropWhile_idempotent]

theorem trimEq_refl (cm : List (WxString × WxString)) : trimEq cm cm :=
  fun _ => rfl

theorem trimEq_trans {cm cm1 cm2 : List (WxString × WxString)}
    (h1 : trimEq cm cm1) (h2 : trimEq cm1 cm2) : trimEq cm cm2 :=
  fun k => (h2 k).trans (h1 k)

theorem trimEq_mapSet (cm : List (WxString × WxString)) (k c : WxString)
    (hc : mapFind cm k = some c) : trimEq cm (mapSet cm k (Trim c)) := by
  intro k1
  by_cases hk : k = k1
  · subst hk
    rw [mapFind_mapSet_self, hc]
    simp [Trim_idem]
  · rw [mapFind_mapSet_ne _ _ _ _ hk]

theorem customAccelOf_congr (s s1 : State) (x : tmAction)
    (h : trimEq s.m_customBindings s1.m_customBindings) :
    customAccelOf s1 x = customAccelOf s x := by
  have hk := h (normalize x.name)
  unfold customAccelOf
  cases h1 : mapFind s1.m_customBindings (normalize x.name) <;>
    cases h2 : mapFind s.m_customBindings (normalize x.name) <;>
    simp_all

/-- The result of `ParseBundleForHash`: the custom value of the action is trimmed in
place, and the out-parameters are those of `bundleHashes`. -/
theorem ParseBundleForHash_eq (W : Wx) (s : State) (x : tmAction) (out : WxString) :
    ParseBundleForHash W s x out =
      ({ s with
          m_customBindings :=
            match mapFind s.m_customBindings (normalize x.name) with
            | some c => mapSet s.m_customBindings (normalize x.name) (Trim c)
            | none => s.m_customBindings },
        bundleHashes W x (customAccelOf s x) out) := by
  unfold ParseBundleForHash bundleHashes customAccelOf
  cases h : mapFind s.m_customBindings (normalize x.name) with
  | none => simp
  | some c =>
    simp only []
    by_cases he : (Trim c).isEmpty = true
    · simp [he]
    · simp only [he, Bool.false_eq_true, if_false]
      cases Find (Trim c) SPACE <;> rfl

/-- What `ParseBundles` changes: the bundle chord objects and table, the flat table
(only for an action that is not chord-based) and the in-place trim of the custom
value. -/
theorem ParseBundles_frame (W : Wx) (s : State) (x : tmAction) :
    ∃ heap bc cm, trimEq s.m_customBindings cm ∧
      ParseBundles W s x =
        { s with
            bundleChordHeap := heap
            m_bundleChords := bc
            m_bundleBindings :=
              if (bundleHashes W x (customAccelOf s x) []).1 > -1 then s.m_bundleBindings
              else mapSet s.m_bundleBindings (bundleHashes W x (customAccelOf s x) []).2.1 true
            m_customBindings := cm } := by
  have htrim : trimEq s.m_customBindings
      (match mapFind s.m_customBindings (normalize x.name) with
        | some c => mapSet s.m_customBindings (normalize x.name) (Trim c)
        | none => s.m_customBindings) := by
    cases h : mapFind s.m_customBindings (normalize x.name) with
    | none => exact trimEq_refl _
    | some c => exact trimEq_mapSet _ _ _ h
  unfold ParseBundles
  rw [ParseBundleForHash_eq]
  by_cases hch : (bundleHashes W x (customAccelOf s x) []).1 > -1
  · simp only [hch, if_true]
    cases mapFind s.m_bundleChords (bundleHashes W x (customAccelOf s x) []).1 with
    | some chord => exact ⟨_, _, _, htrim, rfl⟩
    | none => exact ⟨_, _, _, htrim, rfl⟩
  · simp only [hch, if_false]
    exact ⟨_, _, _, htrim, rfl⟩

/-- What the registration loop changes, and where the entries of the flat table come
from: each is there already or is the final hash of a registered action that is not
chord-based. -/
theorem ParseBundlesList_spec (W : Wx) (s0 : State) :
    ∀ (actions : List tmAction) (s : State),
      trimEq s0.m_customBindings s.m_customBindings →
      ∃ heap bc bb cm, trimEq s0.m_customBindings cm ∧
        ParseBundlesList W s actions =
          { s with
              bundleChordHeap := heap
              m_bundleChords := bc
              m_bundleBindings := bb
              m_customBindings := cm } ∧
        ∀ h, mapFind bb h ≠ none →
          mapFind s.m_bundleBindings h ≠ none ∨
          ∃ a ∈ actions, ¬ ((bundleHashes W a (customAccelOf s0 a) []).1 > -1) ∧
            (bundleHashes W a (customAccelOf s0 a) []).2.1 = h := by
  intro actions
  induction actions with
  | nil =>
    intro s hs
    exact ⟨s.bundleChordHeap, s.m_bundleChords, s.m_bundleBindings, s.m_customBindings, hs, rfl,
      fun h hh => Or.inl hh⟩
  | cons x rest ih =>
    intro s hs
    obtain ⟨heap1, bc1, cm1, htrim1, hstep⟩ := ParseBundles_frame W s x
    have hs1 : trimEq s0.m_customBindings (ParseBundles W s x).m_customBindings := by
      rw [hstep]
      exact trimEq_trans hs htrim1
    obtain ⟨heap, bc, bb, cm, htrim, hlist, hbb⟩ := ih (ParseBundles W s x) hs1
    refine ⟨heap, bc, bb, cm, htrim, ?_, ?_⟩
    · show ParseBundlesList W (ParseBundles W s x) rest = _
      rw [hlist, hstep]
    · intro h hh
      rcases hbb h hh with hold | ⟨a, ha, hflat, hfinal⟩
      · rw [hstep] at hold
        rw [customAccelOf_congr s0 s x hs] at hold
        by_cases hch : (bundleHashes W x (customAccelOf s0 x) []).1 > -1
        · simp only [hch, if_true] at hold
          exact Or.inl hold
        · simp only [hch, if_false] at hold
          by_cases hfh : (bundleHashes W x (customAccelOf s0 x) []).2.1 = h
          · exact Or.inr ⟨x, List.mem_cons_self _ _, hch, hfh⟩
          · rw [mapFind_mapSet_ne _ _ _ _ hfh] at hold
            exact Or.inl hold
      · exact Or.inr ⟨a, List.mem_cons_of_mem _ ha, hflat, hfinal⟩

/-- When Pass A sets "searching dynamic bindings", the key is not a modifier key and
the bundle flat table has the event hash; the custom map and "searching dynamic
chords" are as before. -/
theorem BundlesParsed_flat (W : Wx) (s : State) (code flags : Int)
    (hf3 : s.m_searchBundleBindings = false)
    (hsearch : (BundlesParsed W s code flags).2.m_searchBundleBindings = true) :
    shouldIgnore W code = false ∧
    mapFind s.m_bundleBindings (hashOf flags code) ≠ none ∧
    (BundlesParsed W s code flags).2.m_customBindings = s.m_customBindings ∧
    (BundlesParsed W s code flags).2.m_searchBundleChords = s.m_searchBundleChords := by
  unfold BundlesParsed at hsearch ⊢
  cases hkey : shouldIgnore W code
  · simp only [hkey, Bool.false_eq_true, if_false] at hsearch ⊢
    cases hd : s.m_activeBundleChord with
    | some active => simp [hd, hf3] at hsearch
    | none =>
      cases hsc : s.m_activeChord with
      | some chord => simp [hd, hsc, hf3] at hsearch
      | none =>
        cases hbc : mapFind s.m_bundleChords (hashOf flags code) <;>
          cases hc : mapFind s.m_chords (hashOf flags code) <;>
          cases hbb : mapFind s.m_bundleBindings (hashOf flags code) <;>
          simp [hd, hsc, hf3, hbc, hc, hbb] at hsearch ⊢
  · simp [hkey, hf3] at hsearch

/-- Pass B after a flat match of Pass A: an action is confirmed exactly when its chord
hash is not above -1 and its final hash is the event hash. -/
theorem MatchBundle_flat (W : Wx) (t : State) (code flags : Int) (a : tmAction)
    (hkey : shouldIgnore W code = false) (hsb : t.m_searchBundleBindings = true)
    (hsc : t.m_searchBundleChords = false) :
    (MatchBundle W t code flags a).1 = true ↔
      (¬ ((bundleHashes W a (customAccelOf t a) []).1 > -1) ∧
        (bundleHashes W a (customAccelOf t a) []).2.1 = hashOf flags code) := by
  unfold MatchBundle
  rw [ParseBundleForHash_eq]
  by_cases hch : (bundleHashes W a (customAccelOf t a) []).1 > -1
  · simp [hkey, hsc, hch]
  · simp only [hkey, hsb, hch, Bool.false_eq_true, if_false, Bool.not_true, not_false_eq_true,
      true_and, beq_iff_eq]
    exact eq_comm

/-- C20. Pass A / Pass B agreement on flat dynamic bindings. The bundle flat table is
empty and the two "searching" flags are false at the start of the cycle; the actions
are registered with `ParseBundles`, and Pass A sets "searching dynamic bindings"
(which it does only from idle, through the flat table). Then `MatchBundle` returns true
for at least one registered action; it returns true exactly for the actions that
`ParseBundleForHash` does not classify as chord-based (chord hash not above -1) and
whose final hash is the event hash; and no action whose custom accelerator is a chord
with a leader hash above -1 is confirmed. -/
theorem C20_flat_agreement (W : Wx) (s : State) (actions : List tmAction) (code flags : Int)
    (hf3 : s.m_searchBundleBindings = false) (hf4 : s.m_searchBundleChords = false)
    (hbb : s.m_bundleBindings = [])
    (hsearch :
      (BundlesParsed W (ParseBundlesList W s actions) code flags).2.m_searchBundleBindings
        = true) :
    (∃ a ∈ actions,
      (MatchBundle W (BundlesParsed W (ParseBundlesList W s actions) code flags).2
        code flags a).1 = true) ∧
    (∀ a,
      (MatchBundle W (BundlesParsed W (ParseBundlesList W s actions) code flags).2
        code flags a).1 = true ↔
      (¬ ((ParseBundleForHash W (BundlesParsed W (ParseBundlesList W s actions) code flags).2
            a []).2.1 > -1) ∧
        (ParseBundleForHash W (BundlesParsed W (ParseBundlesList W s actions) code flags).2
            a []).2.2.1 = hashOf flags code)) ∧
    (∀ a c pos,
      mapFind (BundlesParsed W (ParseBundlesList W s actions) code flags).2.m_customBindings
        (normalize a.name) = some c →
      Find (Trim c) SPACE = some pos → -1 < makeHash W (Left (Trim c) pos) →
      (MatchBundle W (BundlesParsed W (ParseBundlesList W s actions) code flags).2
        code flags a).1 = false) := by
  obtain ⟨heap, bc, bb, cm, htrim, hlist, hsrc⟩ :=
    ParseBundlesList_spec W s actions s (trimEq_refl _)
  have h3 : (ParseBundlesList W s actions).m_searchBundleBindings = false := by
    rw [hlist]; exact hf3
  have h4 : (ParseBundlesList W s actions).m_searchBundleChords = false := by
    rw [hlist]; exact hf4
  have hcm : (ParseBundlesList W s actions).m_customBindings = cm := by rw [hlist]
  have hbbs : (ParseBundlesList W s actions).m_bundleBindings = bb := by rw [hlist]
  obtain ⟨hkey, hflat, tcm, tsc⟩ :=
    BundlesParsed_flat W (ParseBundlesList W s actions) code flags h3 hsearch
  rw [hbbs] at hflat
  rw [hcm] at tcm
  rw [h4] at tsc
  generalize (BundlesParsed W (ParseBundlesList W s actions) code flags).2 = t
    at hsearch tcm tsc ⊢
  have hiff := fun a => MatchBundle_flat W t code flags a hkey hsearch tsc
  refine ⟨?_, ?_, ?_⟩
  · rcases hsrc _ hflat with hold | ⟨a, ha, hnot, hfinal⟩
    · rw [hbb] at hold
      exact absurd rfl hold
    · refine ⟨a, ha, (hiff a).mpr ?_⟩
      have hacc : customAccelOf t a = customAccelOf s a :=
        customAccelOf_congr s t a (by rw [tcm]; exact htrim)
      rw [hacc]
      exact ⟨hnot, hfinal⟩
  · intro a
    rw [ParseBundleForHash_eq]
    exact hiff a
  · intro a c pos hc hpos hleader
    have hacc : customAccelOf t a = Trim c := by simp [customAccelOf, hc]
    have hne : (Trim c).isEmpty = false := by
      cases hT : Trim c with
      | nil => rw [hT] at hpos; simp [Find] at hpos
      | cons y ys => rfl
    have hch : (bundleHashes W a (customAccelOf t a) []).1 > -1 := by
      rw [hacc]
      simp only [bundleHashes, hne, Bool.false_eq_true, if_false, hpos]
      exact hleader
    cases hm : (MatchBundle W t code flags a).1 with
    | false => rfl
    | true => exact absurd hch ((hiff a).mp hm).1

/-- C20 at a concrete input: the chord actions `Wrap` and `Join` and the action `Sort`
with its own key `Ctrl-S` are registered; on `Ctrl-S` (key code 83, modifiers 2) Pass A
matches through the flat table and Pass B confirms a registered action, but not
`Wrap`. -/
theorem C20_flat_agreement_witness :
    (∃ a ∈ [wrapAction, joinAction, sortAction],
      (MatchBundle sampleWx (BundlesParsed sampleWx
        (ParseBundlesList sampleWx wrapJoinState [wrapAction, joinAction, sortAction]) 83 2).2
        83 2 a).1 = true) ∧
    (MatchBundle sampleWx (BundlesParsed sampleWx
      (ParseBundlesList sampleWx wrapJoinState [wrapAction, joinAction, sortAction]) 83 2).2
      83 2 wrapAction).1 = false :=
  have h := C20_flat_agreement sampleWx wrapJoinState [wrapAction, joinAction, sortAction] 83 2
    (by decide) (by decide) (by decide) (by decide)
  ⟨h.1, h.2.2 wrapAction "Ctrl-K Ctrl-B".toList 6 (by decide) (by decide) (by decide)⟩

/-! ## Characters and `normalize` -/

theorem toNat_ofNat_lower (n : Nat) (h1 : 65 ≤ n) (h2 : n ≤ 90) :
    (Char.ofNat (n + 32)).toNat = n + 32 := by
  interval_cases n <;> rfl

theorem lowerChar_cases (c : Char) :
    lowerChar c = c ∨ (65 ≤ c.toNat ∧ c.toNat ≤ 90 ∧ (lowerChar c).toNat = c.toNat + 32) := by
  unfold lowerChar
  by_cases h : 65 ≤ c.toNat ∧ c.toNat ≤ 90
  · right
    rw [if_pos h]
    exact ⟨h.1, h.2, toNat_ofNat_lower _ h.1 h.2⟩
  · left
    rw [if_neg h]

theorem isspace_lowerChar (c : Char) : isspace (lowerChar c) = isspace c := by
  rcases lowerChar_cases c with h | ⟨h1, h2, h3⟩
  · rw [h]
  · have e1 : isspace c = false := by
      simp only [isspace, Bool.or_eq_false_iff, decide_eq_false_iff_not, Bool.and_eq_false_iff]
      omega
    have e2 : isspace (lowerChar c) = false := by
      simp only [isspace, h3, Bool.or_eq_false_iff, decide_eq_false_iff_not, Bool.and_eq_false_iff]
      omega
    rw [e1, e2]

theorem amp_lowerChar (c : Char) : ((lowerChar c).toNat != 38) = (c.toNat != 38) := by
  rcases lowerChar_cases c with h | ⟨h1, h2, h3⟩
  · rw [h]
  · have e1 : (c.toNat != 38) = true := by simp; omega
    have e2 : ((lowerChar c).toNat != 38) = true := by rw [h3]; simp; omega
    rw [e1, e2]

theorem lowerChar_of_not_upper (d : Char) (hn : ¬ (65 ≤ d.toNat ∧ d.toNat ≤ 90)) :
    lowerChar d = d := by
  unfold lowerChar
  rw [if_neg hn]

theorem lowerChar_idem (c : Char) : lowerChar (lowerChar c) = lowerChar c := by
  rcases lowerChar_cases c with h | ⟨h1, h2, h3⟩
  · rw [h, h]
  · exact lowerChar_of_not_upper _ (by omega)

theorem Trim_MakeLower (s : WxString) : Trim (MakeLower s) = MakeLower (Trim s) := by
  have hcomp : isspace ∘ lowerChar = isspace := funext isspace_lowerChar
  simp only [Trim, MakeLower, ← List.map_reverse, List.dropWhile_map, hcomp]

theorem mem_Trim (s : WxString) (c : Char) (h : c ∈ Trim s) : c ∈ s := by
  unfold Trim at h
  rw [List.mem_reverse] at h
  exact List.mem_reverse.mp ((List.dropWhile_sublist _).subset h)

/-- Normalizing a normalized label changes nothing. -/
theorem normalize_idem (s : WxString) : normalize (normalize s) = normalize s := by
  unfold normalize
  have hamp : (fun c : Char => c.toNat != 38) ∘ lowerChar = fun c : Char => c.toNat != 38 :=
    funext amp_lowerChar
  have h1 : ReplaceAmp (MakeLower (Trim (ReplaceAmp s))) = MakeLower (Trim (ReplaceAmp s)) := by
    unfold ReplaceAmp MakeLower
    rw [List.filter_map, hamp]
    congr 1
    rw [List.filter_eq_self]
    intro a ha
    have := mem_Trim _ _ ha
    exact (List.mem_filter.mp this).2
  rw [h1, Trim_MakeLower, Trim_idem]
  simp [MakeLower, lowerChar_idem]

/-! ## `InsertBinding` on the static tables -/

theorem getD_modify_ne {α : Type} (l : List α) (f : α → α) (p q : Nat) (d : α)
    (hne : p ≠ q) : (l.modify f p).getD q d = l.getD q d := by
  rw [List.getD_eq_getElem?_getD, List.getD_eq_getElem?_getD, List.getElem?_modify]
  cases l[q]? <;> simp [hne]

theorem InsertBinding_frame (W : Wx) (s : State) (item : MenuItem) (accel : WxString) :
    (InsertBinding W s item accel).m_defaultBindings = s.m_defaultBindings ∧
    (InsertBinding W s item accel).m_customBindings = s.m_customBindings ∧
    (InsertBinding W s item accel).m_needDefault = s.m_needDefault := by
  unfold InsertBinding
  by_cases hlen : accel.length = 0
  · simp [hlen]
  · rw [if_neg hlen]
    cases Find accel SPACE with
    | none => exact ⟨rfl, rfl, rfl⟩
    | some pos =>
      simp only []
      cases mapFind s.m_chords (makeHash W (Left accel pos)) <;> exact ⟨rfl, rfl, rfl⟩

/-- The static tables after `InsertBinding` in terms of the tables before, for a state
whose chord pointers are valid and do not alias. -/
theorem InsertBinding_tables (W : Wx) (s : State) (item : MenuItem) (accel : WxString)
    (hJ : chordsSeparate s) :
    chordsSeparate (InsertBinding W s item accel) ∧
    (InsertBinding W s item accel).m_bindings = bindingsInsert W s.m_bindings item accel ∧
    ∀ h, chordAt (InsertBinding W s item accel) h = chordAtInsert W (chordAt s) item accel h := by
  by_cases hlen : accel.length = 0
  · have e : InsertBinding W s item accel = s := by
      unfold InsertBinding
      rw [if_pos hlen]
    rw [e]
    exact ⟨hJ, by simp [bindingsInsert, hlen], fun h => by simp [chordAtInsert, hlen]⟩
  · unfold InsertBinding bindingsInsert chordAtInsert
    simp only [hlen, if_false]
    cases hF : Find accel SPACE with
    | none => exact ⟨hJ, rfl, fun _ => rfl⟩
    | some pos =>
      simp only []
      obtain ⟨hvalid, hsep⟩ := hJ
      cases hk : mapFind s.m_chords (makeHash W (Left accel pos)) with
      | some p =>
        have hp : p < s.chordHeap.length := hvalid _ _ hk
        refine ⟨⟨?_, ?_⟩, rfl, ?_⟩
        · intro h q hq
          have := hvalid h q hq
          simpa using this
        · exact hsep
        · intro h
          by_cases hh : makeHash W (Left accel pos) = h
          · subst hh
            simp only [chordAt, hk, if_true, Option.map_some', derefChord]
            rw [getD_modify_self _ _ _ _ hp]
          · simp only [chordAt, if_neg hh]
            cases hq : mapFind s.m_chords h with
            | none => rfl
            | some q =>
              have hpq : p ≠ q := fun e => hh (hsep _ _ p hk (e ▸ hq))
              simp only [Option.map_some', derefChord]
              rw [getD_modify_ne _ _ _ _ _ hpq]
      | none =>
        have hnew : ∀ h, h ≠ makeHash W (Left accel pos) →
            mapFind (mapInsert s.m_chords (makeHash W (Left accel pos)) s.chordHeap.length) h
              = mapFind s.m_chords h := by
          intro h hne
          simp only [mapInsert, hk]
          exact mapFind_mapSet_ne _ _ _ _ (Ne.symm hne)
        have hself :
            mapFind (mapInsert s.m_chords (makeHash W (Left accel pos)) s.chordHeap.length)
              (makeHash W (Left accel pos)) = some s.chordHeap.length :=
          mapFind_mapInsert_self _ _ _ hk
        refine ⟨⟨?_, ?_⟩, rfl, ?_⟩
        · intro h q hq
          simp only [List.length_modify, List.length_append, List.length_singleton]
          by_cases hh : h = makeHash W (Left accel pos)
          · subst hh
            have : q = s.chordHeap.length := by
              have := hself.symm.trans hq
              exact (Option.some.inj this).symm
            omega
          · have hq1 : mapFind s.m_chords h = some q := (hnew h hh).symm.trans hq
            have := hvalid h q hq1
            omega
        · intro h1 h2 q hq1 hq2
          by_cases hh1 : h1 = makeHash W (Left accel pos)
          · by_cases hh2 : h2 = makeHash W (Left accel pos)
            · rw [hh1, hh2]
            · exfalso
              have e1 : q = s.chordHeap.length := by
                subst hh1
                exact (Option.some.inj (hself.symm.trans hq1)).symm
              have e2 := hvalid h2 q ((hnew h2 hh2).symm.trans hq2)
              omega
          · by_cases hh2 : h2 = makeHash W (Left accel pos)
            · exfalso
              have e1 : q = s.chordHeap.length := by
                subst hh2
                exact (Option.some.inj (hself.symm.trans hq2)).symm
              have e2 := hvalid h1 q ((hnew h1 hh1).symm.trans hq1)
              omega
            · exact hsep h1 h2 q ((hnew h1 hh1).symm.trans hq1) ((hnew h2 hh2).symm.trans hq2)
        · intro h
          by_cases hh : makeHash W (Left accel pos) = h
          · subst hh
            simp only [chordAt, hself, hk, if_true, Option.map_some', Option.map_none',
              derefChord]
            rw [getD_modify_self _ _ _ _ (by simp)]
            simp [List.getD_eq_getElem?_getD, mapSet]
          · simp only [chordAt, if_neg hh, hnew h (Ne.symm hh)]
            cases hq : mapFind s.m_chords h with
            | none => rfl
            | some q =>
              have hqlt : q < s.chordHeap.length := hvalid h q hq
              have hne : s.chordHeap.length ≠ q := by omega
              simp only [Option.map_some', derefChord]
              rw [getD_modify_ne _ _ _ _ _ hne]
              simp [List.getD_eq_getElem?_getD, List.getElem?_append_left hqlt]

/-- `InsertBinding` with the same arguments keeps two states in agreement on the static
tables. -/
theorem InsertBinding_agree (W : Wx) (s t : State) (item : MenuItem) (accel : WxString)
    (hs : chordsSeparate s) (ht : chordsSeparate t) (hagree : tablesAgree s t) :
    chordsSeparate (InsertBinding W s item accel) ∧
    chordsSeparate (InsertBinding W t item accel) ∧
    tablesAgree (InsertBinding W s item accel) (InsertBinding W t item accel) := by
  obtain ⟨js, bs, cs⟩ := InsertBinding_tables W s item accel hs
  obtain ⟨jt, bt, ct⟩ := InsertBinding_tables W t item accel ht
  refine ⟨js, jt, ?_, ?_⟩
  · rw [bs, bt, hagree.1]
  · intro h
    rw [cs h, ct h]
    have hfun : chordAt t = chordAt s := funext hagree.2
    rw [hfun]

/-! ## `ParseMenu(item)` in two traversals -/

/-- The parts of `ParseMenuAccel`: only the default map of the members can change. -/
theorem ParseMenuAccel_eq (s : State) (item : MenuItem) :
    ParseMenuAccel s item =
      ({ s with m_defaultBindings := defaultsAfter s item },
        rewriteItem s.m_customBindings item,
        overrideAccel s.m_customBindings item (baseAccel s item)) := by
  cases hF : Find item.text TAB with
  | none =>
    cases hc : mapFind s.m_customBindings (normalize item.text) <;>
      simp only [ParseMenuAccel, defaultsAfter, rewriteItem, overrideAccel, baseAccel, labelOf,
        declaredAccel, hF, hc]
  | some tab =>
    by_cases hn : s.m_needDefault = true
    · cases hc : mapFind s.m_customBindings (normalize (Left item.text tab)) <;>
        simp only [ParseMenuAccel, defaultsAfter, rewriteItem, overrideAccel, baseAccel, labelOf,
          declaredAccel, hF, hn, if_true, hc]
    · simp only [ParseMenuAccel, defaultsAfter, rewriteItem, overrideAccel, baseAccel, labelOf,
        declaredAccel, hF]
      simp only [if_neg hn]
      cases hd : mapFind s.m_defaultBindings (normalize (Left item.text tab)) <;>
        cases hc : mapFind s.m_customBindings (normalize (Left item.text tab)) <;>
        simp only [hc]

theorem not_mem_Left_of_Find (text : WxString) (c : Char) :
    ∀ i, Find text c = some i → c ∉ Left text i := by
  induction text with
  | nil => intro i h; simp [Find] at h
  | cons a t ih =>
    intro i h
    by_cases hac : a = c
    · simp [Find, hac] at h
      subst h
      simp [Left]
    · simp only [Find, hac, if_false, Option.map_eq_some'] at h
      obtain ⟨j, hj, rfl⟩ := h
      have := ih j hj
      simp only [Left, List.take_succ_cons, List.mem_cons, not_or] at this ⊢
      exact ⟨fun e => hac e.symm, this⟩

theorem not_mem_of_Find_none (text : WxString) (c : Char) (h : Find text c = none) :
    c ∉ text := by
  induction text with
  | nil => simp
  | cons a t ih =>
    by_cases hac : a = c
    · simp [Find, hac] at h
    · simp only [Find, hac, if_false, Option.map_eq_none'] at h
      simp only [List.mem_cons, not_or]
      exact ⟨fun e => hac e.symm, ih h⟩

/-- The label of a menu item text has no tab. -/
theorem not_mem_labelOf (text : WxString) : TAB ∉ labelOf text := by
  unfold labelOf
  cases h : Find text TAB with
  | none => exact not_mem_of_Find_none _ _ h
  | some i => exact not_mem_Left_of_Find _ _ i h

theorem labelOf_plain (L : WxString) (hL : TAB ∉ L) : labelOf L = L := by
  simp [labelOf, Find_none_of_not_mem L TAB hL]

theorem labelOf_accel (L c : WxString) (hL : TAB ∉ L) : labelOf (L ++ TAB :: c) = L := by
  simp [labelOf, Find_append_of_not_mem L c TAB hL, Left_append]

/-- The rewritten item has the label of the item. -/
theorem labelOf_rewriteItem (cm : List (WxString × WxString)) (item : MenuItem) :
    labelOf (rewriteItem cm item).text = labelOf item.text := by
  unfold rewriteItem
  cases mapFind cm (normalize (labelOf item.text)) with
  | none => rfl
  | some c =>
    simp only []
    by_cases hc : c.length > 0
    · rw [if_pos hc]
      exact labelOf_accel _ _ (not_mem_labelOf _)
    · rw [if_neg hc]
      exact labelOf_plain _ (not_mem_labelOf _)

/-- Rewriting a rewritten item changes nothing. -/
theorem rewriteItem_idem (cm : List (WxString × WxString)) (item : MenuItem) :
    rewriteItem cm (rewriteItem cm item) = rewriteItem cm item := by
  have hl := labelOf_rewriteItem cm item
  cases hc : mapFind cm (normalize (labelOf item.text)) with
  | none => simp [rewriteItem, hc]
  | some c =>
    have e : rewriteItem cm item =
        { item with
            text := if c.length > 0 then labelOf item.text ++ TAB :: c else labelOf item.text } := by
      simp [rewriteItem, hc]
    generalize rewriteItem cm item = item1 at hl e
    unfold rewriteItem
    rw [hl, hc]
    subst e
    rfl

theorem rewriteItem_isSeparator (cm : List (WxString × WxString)) (item : MenuItem) :
    (rewriteItem cm item).isSeparator = item.isSeparator := by
  unfold rewriteItem
  cases mapFind cm (normalize (labelOf item.text)) <;> rfl

theorem rewriteItem_of_none (cm : List (WxString × WxString)) (item : MenuItem)
    (hc : mapFind cm (normalize (labelOf item.text)) = none) : rewriteItem cm item = item := by
  simp [rewriteItem, hc]

/-- The second look at an item: once `ParseMenuAccel` has rewritten an item in the
first traversal (default map being captured), a later `ParseMenuAccel` with the same
custom map leaves the item as it is and resolves the same accelerator, provided a
default found for the label of an item without custom entry is the accelerator the item
declares. -/
theorem ParseMenuAccel_again (s1 s2 : State) (item : MenuItem)
    (h1 : s1.m_needDefault = true) (hcm : s2.m_customBindings = s1.m_customBindings)
    (hH : s2.m_needDefault = false →
      mapFind s1.m_customBindings (normalize (labelOf item.text)) = none →
      ∀ d, mapFind s2.m_defaultBindings (normalize (labelOf item.text)) = some d →
        d = declaredAccel item.text) :
    (ParseMenuAccel s2 (ParseMenuAccel s1 item).2.1).2.1 = (ParseMenuAccel s1 item).2.1 ∧
    (ParseMenuAccel s2 (ParseMenuAccel s1 item).2.1).2.2 = (ParseMenuAccel s1 item).2.2 := by
  rw [ParseMenuAccel_eq s1 item]
  simp only []
  rw [ParseMenuAccel_eq s2]
  simp only [hcm]
  refine ⟨rewriteItem_idem _ _, ?_⟩
  unfold overrideAccel
  rw [labelOf_rewriteItem]
  cases hc : mapFind s1.m_customBindings (normalize (labelOf item.text)) with
  | some c => rfl
  | none =>
    simp only []
    rw [rewriteItem_of_none _ _ hc]
    congr 1
    unfold baseAccel
    cases hF : Find item.text TAB with
    | none => rfl
    | some tab =>
      simp only [h1, if_true]
      by_cases h2 : s2.m_needDefault = true
      · rw [if_pos h2]
      · rw [if_neg h2]
        have h2f : s2.m_needDefault = false := by simpa using h2
        cases hd : mapFind s2.m_defaultBindings (normalize (labelOf item.text)) with
        | none => rfl
        | some d => exact hH h2f hc d hd

/-- The members after `ParseMenuAccel`: everything but the default map is as before. -/
theorem ParseMenuAccel_state (s : State) (item : MenuItem) :
    ∃ t, ParseMenuAccel s item =
        (t, rewriteItem s.m_customBindings item,
          overrideAccel s.m_customBindings item (baseAccel s item)) ∧
      t.m_needDefault = s.m_needDefault ∧ t.m_customBindings = s.m_customBindings ∧
      t.m_chords = s.m_chords ∧ t.chordHeap = s.chordHeap ∧ t.m_bindings = s.m_bindings ∧
      t.m_defaultBindings = defaultsAfter s item :=
  ⟨_, ParseMenuAccel_eq s item, rfl, rfl, rfl, rfl, rfl, rfl⟩

theorem chordAt_congr (s t : State) (hm : t.m_chords = s.m_chords)
    (hh : t.chordHeap = s.chordHeap) (h : Int) : chordAt t h = chordAt s h := by
  have hd : derefChord t = derefChord s := by
    funext p
    simp only [derefChord, hh]
  simp only [chordAt, hm, hd]

theorem chordsSeparate_congr (s t : State) (hm : t.m_chords = s.m_chords)
    (hh : t.chordHeap = s.chordHeap) (hs : chordsSeparate s) : chordsSeparate t := by
  unfold chordsSeparate chordsValid at hs ⊢
  rw [hm, hh]
  exact hs

theorem defaultsAfter_of_later (s : State) (item : MenuItem) (h : s.m_needDefault = false) :
    defaultsAfter s item = s.m_defaultBindings := by
  unfold defaultsAfter
  cases Find item.text TAB <;> simp [h]

/-- One item in two traversals. `s1` is a state of the first traversal (default map
being captured), `s2` a state of the second with the same custom map and static tables
in agreement: `ParseMenu` on the item the first traversal left behind changes neither
the item nor the accelerator, and the states stay related. -/
theorem ParseMenuItem_again (W : Wx) (s1 s2 : State) (item : MenuItem)
    (h1 : s1.m_needDefault = true) (hcm : s2.m_customBindings = s1.m_customBindings)
    (hs1 : chordsSeparate s1) (hs2 : chordsSeparate s2) (hagree : tablesAgree s1 s2)
    (hH : s2.m_needDefault = false → item.isSeparator = false →
      mapFind s1.m_customBindings (normalize (labelOf item.text)) = none →
      ∀ d, mapFind s2.m_defaultBindings (normalize (labelOf item.text)) = some d →
        d = declaredAccel item.text) :
    (ParseMenuItem W s2 (ParseMenuItem W s1 item).2).2 = (ParseMenuItem W s1 item).2 ∧
    (if (ParseMenuItem W s1 item).2.isSeparator then none
      else some (ParseMenuAccel s2 (ParseMenuItem W s1 item).2).2.2)
      = (if item.isSeparator then none else some (ParseMenuAccel s1 item).2.2) ∧
    (ParseMenuItem W s1 item).1.m_needDefault = true ∧
    (ParseMenuItem W s1 item).1.m_customBindings = s1.m_customBindings ∧
    (ParseMenuItem W s2 (ParseMenuItem W s1 item).2).1.m_customBindings
      = s1.m_customBindings ∧
    chordsSeparate (ParseMenuItem W s1 item).1 ∧
    chordsSeparate (ParseMenuItem W s2 (ParseMenuItem W s1 item).2).1 ∧
    tablesAgree (ParseMenuItem W s1 item).1 (ParseMenuItem W s2 (ParseMenuItem W s1 item).2).1 ∧
    (ParseMenuItem W s2 (ParseMenuItem W s1 item).2).1.m_needDefault = s2.m_needDefault ∧
    (s2.m_needDefault = false →
      (ParseMenuItem W s2 (ParseMenuItem W s1 item).2).1.m_defaultBindings
        = s2.m_defaultBindings) := by
  by_cases hsep : item.isSeparator = true
  · have a1 : ParseMenuItem W s1 item = (s1, item) := by simp [ParseMenuItem, hsep]
    have a2 : ParseMenuItem W s2 item = (s2, item) := by simp [ParseMenuItem, hsep]
    rw [a1]
    dsimp only
    rw [a2]
    refine ⟨rfl, ?_, h1, rfl, hcm, hs1, hs2, hagree, rfl, fun _ => rfl⟩
    simp only [hsep, if_true]
  · have hsepf : item.isSeparator = false := by simpa using hsep
    obtain ⟨e1, e2⟩ := ParseMenuAccel_again s1 s2 item h1 hcm (fun a => hH a hsepf)
    obtain ⟨t1, p1, n1, c1, m1, hp1, b1, _⟩ := ParseMenuAccel_state s1 item
    rw [p1] at e1 e2
    simp only [] at e1 e2
    have hsep1 : (rewriteItem s1.m_customBindings item).isSeparator = false := by
      rw [rewriteItem_isSeparator]
      exact hsepf
    obtain ⟨t2, p2, n2, c2, m2, hp2, b2, d2⟩ :=
      ParseMenuAccel_state s2 (rewriteItem s1.m_customBindings item)
    rw [p2] at e1 e2
    simp only [] at e1 e2
    have q1 : ParseMenuItem W s1 item =
        (InsertBinding W t1 (rewriteItem s1.m_customBindings item)
          (overrideAccel s1.m_customBindings item (baseAccel s1 item)),
          rewriteItem s1.m_customBindings item) := by
      simp only [ParseMenuItem, hsepf, Bool.false_eq_true, if_false, p1]
    have q2 : ParseMenuItem W s2 (rewriteItem s1.m_customBindings item) =
        (InsertBinding W t2 (rewriteItem s1.m_customBindings item)
          (overrideAccel s1.m_customBindings item (baseAccel s1 item)),
          rewriteItem s1.m_customBindings item) := by
      simp only [ParseMenuItem, hsep1, Bool.false_eq_true, if_false, p2, e1, e2]
    have j1 : chordsSeparate t1 := chordsSeparate_congr s1 t1 m1 hp1 hs1
    have j2 : chordsSeparate t2 := chordsSeparate_congr s2 t2 m2 hp2 hs2
    have ag : tablesAgree t1 t2 := by
      refine ⟨by rw [b2, b1, hagree.1], fun h => ?_⟩
      rw [chordAt_congr s2 t2 m2 hp2, chordAt_congr s1 t1 m1 hp1]
      exact hagree.2 h
    obtain ⟨k1, k2, kag⟩ := InsertBinding_agree W t1 t2 (rewriteItem s1.m_customBindings item)
      (overrideAccel s1.m_customBindings item (baseAccel s1 item)) j1 j2 ag
    obtain ⟨f1d, f1c, f1n⟩ := InsertBinding_frame W t1 (rewriteItem s1.m_customBindings item)
      (overrideAccel s1.m_customBindings item (baseAccel s1 item))
    obtain ⟨f2d, f2c, f2n⟩ := InsertBinding_frame W t2 (rewriteItem s1.m_customBindings item)
      (overrideAccel s1.m_customBindings item (baseAccel s1 item))
    rw [q1]
    simp only []
    rw [q2]
    simp only [hsep1, hsepf, Bool.false_eq_true, if_false, p1, p2]
    refine ⟨trivial, by rw [e2], by rw [f1n, n1, h1], by rw [f1c, c1], by rw [f2c, c2, hcm],
      k1, k2, kag, by rw [f2n, n2], fun h2 => ?_⟩
    rw [f2d, d2]
    exact defaultsAfter_of_later _ _ h2

/-- The members after `ParseMenu(item)` that the resolution of accelerators reads. -/
theorem ParseMenuItem_frame (W : Wx) (s : State) (item : MenuItem) :
    (ParseMenuItem W s item).1.m_needDefault = s.m_needDefault ∧
    (ParseMenuItem W s item).1.m_customBindings = s.m_customBindings ∧
    (ParseMenuItem W s item).1.m_defaultBindings =
      if item.isSeparator then s.m_defaultBindings else defaultsAfter s item := by
  by_cases hsep : item.isSeparator = true
  · simp [ParseMenuItem, hsep]
  · have hsepf : item.isSeparator = false := by simpa using hsep
    obtain ⟨t, p, n, c, _, _, _, d⟩ := ParseMenuAccel_state s item
    obtain ⟨fd, fc, fn⟩ := InsertBinding_frame W t (rewriteItem s.m_customBindings item)
      (overrideAccel s.m_customBindings item (baseAccel s item))
    simp only [ParseMenuItem, hsepf, Bool.false_eq_true, if_false, p]
    exact ⟨by rw [fn, n], by rw [fc, c], by rw [fd, d]⟩

theorem ParseMenuItems_frame (W : Wx) :
    ∀ (items : List MenuItem) (s : State),
      (ParseMenuItems W s items).1.m_customBindings = s.m_customBindings := by
  intro items
  induction items with
  | nil => intro s; rfl
  | cons item rest ih =>
    intro s
    simp only [ParseMenuItems]
    rw [ih, (ParseMenuItem_frame W s item).2.1]

/-- Where the entries of the default map come from in a traversal that captures the
defaults: each was there before or is the label and declared accelerator of an item of
the list that is not a separator. -/
theorem ParseMenuItems_defaults (W : Wx) :
    ∀ (items : List MenuItem) (s : State), s.m_needDefault = true →
      ∀ k d, mapFind (ParseMenuItems W s items).1.m_defaultBindings k = some d →
        mapFind s.m_defaultBindings k = some d ∨
        ∃ item ∈ items, item.isSeparator = false ∧ labelOf item.text = k ∧
          declaredAccel item.text = d := by
  intro items
  induction items with
  | nil => intro s _ k d h; exact Or.inl h
  | cons item rest ih =>
    intro s hn k d h
    simp only [ParseMenuItems] at h
    obtain ⟨fn, _, fd⟩ := ParseMenuItem_frame W s item
    rcases ih (ParseMenuItem W s item).1 (by rw [fn, hn]) k d h with hold | ⟨j, hj, hjs, hjl, hjd⟩
    · rw [fd] at hold
      by_cases hsep : item.isSeparator = true
      · rw [if_pos hsep] at hold
        exact Or.inl hold
      · rw [if_neg hsep] at hold
        unfold defaultsAfter at hold
        cases hF : Find item.text TAB with
        | none =>
          simp only [hF] at hold
          exact Or.inl hold
        | some tab =>
          simp only [hF, hn, if_true] at hold
          by_cases hk : labelOf item.text = k
          · subst hk
            rw [mapFind_mapSet_self] at hold
            exact Or.inr ⟨item, List.mem_cons_self _ _, by simpa using hsep, rfl,
              Option.some.inj hold⟩
          · rw [mapFind_mapSet_ne _ _ _ _ hk] at hold
            exact Or.inl hold
    · exact Or.inr ⟨j, List.mem_cons_of_mem _ hj, hjs, hjl, hjd⟩

/-- Two traversals of a list of items, the second reading the items the first left
behind: the items, the resolved accelerators and the static tables agree. -/
theorem ParseMenuItems_again (W : Wx) :
    ∀ (items : List MenuItem) (s1 s2 : State),
      s1.m_needDefault = true → s2.m_customBindings = s1.m_customBindings →
      chordsSeparate s1 → chordsSeparate s2 → tablesAgree s1 s2 →
      (s2.m_needDefault = false → ∀ item ∈ items, item.isSeparator = false →
        mapFind s1.m_customBindings (normalize (labelOf item.text)) = none →
        ∀ d, mapFind s2.m_defaultBindings (normalize (labelOf item.text)) = some d →
          d = declaredAccel item.text) →
      (ParseMenuItems W s2 (ParseMenuItems W s1 items).2).2 = (ParseMenuItems W s1 items).2 ∧
      resolvedAccels W s2 (ParseMenuItems W s1 items).2 = resolvedAccels W s1 items ∧
      tablesAgree (ParseMenuItems W s1 items).1
        (ParseMenuItems W s2 (ParseMenuItems W s1 items).2).1 := by
  intro items
  induction items with
  | nil =>
    intro s1 s2 _ _ _ _ hagree _
    exact ⟨rfl, rfl, hagree⟩
  | cons item rest ih =>
    intro s1 s2 h1 hcm hs1 hs2 hagree hH
    obtain ⟨a, b, c, d, e, f, g, k, l, m⟩ := ParseMenuItem_again W s1 s2 item h1 hcm hs1 hs2
      hagree (fun h2 => hH h2 item (List.mem_cons_self _ _))
    have hH1 : (ParseMenuItem W s2 (ParseMenuItem W s1 item).2).1.m_needDefault = false →
        ∀ it ∈ rest, it.isSeparator = false →
        mapFind (ParseMenuItem W s1 item).1.m_customBindings (normalize (labelOf it.text))
          = none →
        ∀ dd, mapFind (ParseMenuItem W s2 (ParseMenuItem W s1 item).2).1.m_defaultBindings
          (normalize (labelOf it.text)) = some dd → dd = declaredAccel it.text := by
      intro h2 it hit hs hc dd hd
      have h2s : s2.m_needDefault = false := by rw [← l]; exact h2
      rw [m h2s] at hd
      rw [d] at hc
      exact hH h2s it (List.mem_cons_of_mem _ hit) hs hc dd hd
    obtain ⟨i1, i2, i3⟩ := ih (ParseMenuItem W s1 item).1
      (ParseMenuItem W s2 (ParseMenuItem W s1 item).2).1 c (e.trans d.symm) f g k hH1
    simp only [ParseMenuItems, resolvedAccels]
    refine ⟨?_, ?_, i3⟩
    · rw [a, i1]
    · rw [b, i2]

/-- C14 as stated fails: two items with the same label `save` and the accelerators
`Ctrl+S` and `Ctrl+D`, no custom binding. The first traversal resolves them to
`Ctrl+S` and `Ctrl+D` and binds both keys; the second traversal resolves both to
`Ctrl+D` and binds only that key. -/
theorem C14_same_label_changes :
    resolvedAccels sampleWx (ParseMenuBegin initState) twoSaveItems
      = [some "Ctrl+S".toList, some "Ctrl+D".toList] ∧
    resolvedAccels sampleWx
      (ParseMenuBegin (ParseMenuItems sampleWx (ParseMenuBegin initState) twoSaveItems).1)
      (ParseMenuItems sampleWx (ParseMenuBegin initState) twoSaveItems).2
      = [some "Ctrl+D".toList, some "Ctrl+D".toList] ∧
    (ParseMenuItems sampleWx (ParseMenuBegin initState) twoSaveItems).1.m_bindings.map
      (fun e => (e.1, e.2.id)) = [(makeHash sampleWx "Ctrl+S".toList, 1),
        (makeHash sampleWx "Ctrl+D".toList, 2)] ∧
    (ParseMenuItems sampleWx
      (ParseMenuBegin (ParseMenuItems sampleWx (ParseMenuBegin initState) twoSaveItems).1)
      (ParseMenuItems sampleWx (ParseMenuBegin initState) twoSaveItems).2).1.m_bindings.map
      (fun e => (e.1, e.2.id)) = [(makeHash sampleWx "Ctrl+D".toList, 2)] := by
  decide

/-- C14, amended. For every list of menu items in which no two items that are not
separators have labels normalizing to the same string, and every custom map, starting
with an empty default map: the traversal run a second time on the items the first
traversal left behind leaves every item text as it is, resolves every item to the
same accelerator, and produces the same static flat table and, for every hash, the
same chord object in the static chord table. -/
theorem C14_traversal_idempotent (W : Wx) (s : State) (items : List MenuItem)
    (hfirst : s.m_defaultBindings = [])
    (hdistinct : ((items.filter (fun i => !i.isSeparator)).map
      (fun i => normalize (labelOf i.text))).Nodup) :
    (ParseMenuItems W (ParseMenuBegin (ParseMenuItems W (ParseMenuBegin s) items).1)
      (ParseMenuItems W (ParseMenuBegin s) items).2).2
      = (ParseMenuItems W (ParseMenuBegin s) items).2 ∧
    resolvedAccels W (ParseMenuBegin (ParseMenuItems W (ParseMenuBegin s) items).1)
      (ParseMenuItems W (ParseMenuBegin s) items).2
      = resolvedAccels W (ParseMenuBegin s) items ∧
    (ParseMenuItems W (ParseMenuBegin (ParseMenuItems W (ParseMenuBegin s) items).1)
      (ParseMenuItems W (ParseMenuBegin s) items).2).1.m_bindings
      = (ParseMenuItems W (ParseMenuBegin s) items).1.m_bindings ∧
    (∀ h,
      chordAt (ParseMenuItems W (ParseMenuBegin (ParseMenuItems W (ParseMenuBegin s) items).1)
        (ParseMenuItems W (ParseMenuBegin s) items).2).1 h
      = chordAt (ParseMenuItems W (ParseMenuBegin s) items).1 h) := by
  have h1 : (ParseMenuBegin s).m_needDefault = true := by
    simp [ParseMenuBegin, hfirst]
  have hd1 : (ParseMenuBegin s).m_defaultBindings = [] := hfirst
  have hcm : (ParseMenuBegin (ParseMenuItems W (ParseMenuBegin s) items).1).m_customBindings
      = (ParseMenuBegin s).m_customBindings :=
    ParseMenuItems_frame W items (ParseMenuBegin s)
  have hsep : ∀ t : State, chordsSeparate (ParseMenuBegin t) := by
    intro t
    refine ⟨fun h p hp => ?_, fun h1 h2 p hp _ => ?_⟩ <;> simp [ParseMenuBegin, mapFind] at hp
  have hagree : tablesAgree (ParseMenuBegin s)
      (ParseMenuBegin (ParseMenuItems W (ParseMenuBegin s) items).1) :=
    ⟨rfl, fun _ => rfl⟩
  have hH : (ParseMenuBegin (ParseMenuItems W (ParseMenuBegin s) items).1).m_needDefault = false →
      ∀ item ∈ items, item.isSeparator = false →
      mapFind (ParseMenuBegin s).m_customBindings (normalize (labelOf item.text)) = none →
      ∀ d, mapFind (ParseMenuBegin (ParseMenuItems W (ParseMenuBegin s)
        items).1).m_defaultBindings (normalize (labelOf item.text)) = some d →
        d = declaredAccel item.text := by
    intro _ item hitem hs _ d hd
    have hd2 : mapFind (ParseMenuItems W (ParseMenuBegin s) items).1.m_defaultBindings
        (normalize (labelOf item.text)) = some d := hd
    rcases ParseMenuItems_defaults W items (ParseMenuBegin s) h1 _ _ hd2 with
      hold | ⟨j, hj, hjs, hjl, hjd⟩
    · rw [hd1] at hold
      simp [mapFind] at hold
    · have hnorm : normalize (labelOf j.text) = normalize (labelOf item.text) := by
        rw [hjl, normalize_idem]
      have hjmem : j ∈ items.filter (fun i => !i.isSeparator) :=
        List.mem_filter.mpr ⟨hj, by simp [hjs]⟩
      have himem : item ∈ items.filter (fun i => !i.isSeparator) :=
        List.mem_filter.mpr ⟨hitem, by simp [hs]⟩
      have hji : j = item := List.inj_on_of_nodup_map hdistinct hjmem himem hnorm
      rw [← hjd, hji]
  obtain ⟨r1, r2, r3, r4⟩ := ParseMenuItems_again W items (ParseMenuBegin s)
    (ParseMenuBegin (ParseMenuItems W (ParseMenuBegin s) items).1) h1 hcm (hsep _) (hsep _)
    hagree hH
  exact ⟨r1, r2, r3, r4⟩

/-- C14 (amended) at a concrete input: the menu with `Save`, a separator and `&Open`,
the custom binding `save -> Ctrl+Shift+S`; the second traversal leaves the texts the
first one wrote. -/
theorem C14_traversal_idempotent_witness :
    ((ParseMenuItems sampleWx (ParseMenuBegin saveCustomState) sampleMenu).2.map
      MenuItem.text) = ["Save\tCtrl+Shift+S".toList, [], "&Open\tCtrl+O".toList] ∧
    (ParseMenuItems sampleWx
      (ParseMenuBegin (ParseMenuItems sampleWx (ParseMenuBegin saveCustomState) sampleMenu).1)
      (ParseMenuItems sampleWx (ParseMenuBegin saveCustomState) sampleMenu).2).2
      = (ParseMenuItems sampleWx (ParseMenuBegin saveCustomState) sampleMenu).2 :=
  ⟨by decide,
    (C14_traversal_idempotent sampleWx saveCustomState sampleMenu (by decide) (by decide)).1⟩

end Accelerators
